import Mathlib

/-!
# VeriWipe: formal model of the core engines

A shallow embedding of the VeriWipe secure-wipe tool (Python), covering:

* the AI/rule-based wipe-method selector (`ai_engine/ai_wipe_engine.py`);
* the error diagnosis table and the `execute_wipe` control flow
  (`wipe_core/wipe_engine.py`);
* the tamper-proof hash-chained logger, the canonical-JSON certificate
  builder, signer and verifier (`certificate_engine/certificate_generator.py`);
* the post-wipe sector-sampling verification and the progress notifications
  of the wipe core.

Modelling conventions:

* Python floats that only flow into string formatting (log timestamps,
  certificate numeric fields) are carried as their `repr` strings; floats
  used arithmetically (sizes, progress, confidences) are modelled as `ℚ`.
* `hashlib.sha256` and the ECDSA signing primitives are abstract function
  parameters; collision-freedom / signature-binding are explicit hypotheses.
* Subprocess and raw-device I/O results are oracle parameters (records of
  booleans / functions) supplied to the control-flow functions.
* Process-level nondeterminism (Python's salted `str.__hash__`, the
  RandomForest model trained on unseeded random data) is a `ProcessState`
  parameter.
-/

namespace Veriwipe

/-! ## Device and method enumerations (`ai_wipe_engine.py`) -/
/-- The `DeviceType` enum, in source declaration order. -/
inductive DeviceType
  | hdd
  | ssd_sata
  | ssd_nvme
  | emmc
  | usb
  | unknown
  deriving DecidableEq, Repr

/-- The `WipeMethod` enum, in source declaration order (the order of
`list(WipeMethod)`, which the AI prediction path indexes into). -/
inductive WipeMethod
  | ata_secure_erase
  | nvme_secure_erase
  | nvme_crypto_erase
  | multipass_overwrite
  | single_pass_random
  | crypto_erase
  | factory_reset
  deriving DecidableEq, Repr

/-- The `.value` string of a `DeviceType` member. -/
def deviceTypeValue : DeviceType → String
  | .hdd => "hdd"
  | .ssd_sata => "ssd_sata"
  | .ssd_nvme => "ssd_nvme"
  | .emmc => "emmc"
  | .usb => "usb"
  | .unknown => "unknown"

/-- The `.value` string of a `WipeMethod` member. -/
def wipeMethodValue : WipeMethod → String
  | .ata_secure_erase => "ata_secure_erase"
  | .nvme_secure_erase => "nvme_secure_erase"
  | .nvme_crypto_erase => "nvme_crypto_erase"
  | .multipass_overwrite => "multipass_overwrite"
  | .single_pass_random => "single_pass_random"
  | .crypto_erase => "crypto_erase"
  | .factory_reset => "factory_reset"

/-- The `list(WipeMethod)` as indexed by the AI prediction path. -/
def wipeMethodList : List WipeMethod :=
  [.ata_secure_erase, .nvme_secure_erase, .nvme_crypto_erase,
   .multipass_overwrite, .single_pass_random, .crypto_erase, .factory_reset]

/-- The `DeviceInfo` dataclass.  `size_gb` (a Python float) is modelled as `ℚ`;
the `features` dict is omitted (it feeds only device detection, which no
modelled function reads). -/
structure DeviceInfo where
  device_path : String
  device_type : DeviceType
  model : String
  serial : String
  size_gb : ℚ
  interface : String
  encryption_status : String
  hpa_dco_present : Bool
  secure_erase_supported : Bool
  deriving DecidableEq, Repr

/-! ## Method selection (`AIWipeEngine`) -/
/-- The `AIWipeEngine._rule_based_method_selection`. -/
def ruleBasedMethodSelection (d : DeviceInfo) : WipeMethod :=
  if d.encryption_status = "LUKS" ∨ d.encryption_status = "BitLocker" then
    .crypto_erase
  else if d.device_type = .ssd_nvme then
    if d.secure_erase_supported then .nvme_secure_erase else .nvme_crypto_erase
  else if d.device_type = .ssd_sata ∨ d.device_type = .emmc then
    if d.secure_erase_supported then .ata_secure_erase else .single_pass_random
  else if d.device_type = .hdd then
    if d.secure_erase_supported then .ata_secure_erase else .multipass_overwrite
  else
    .single_pass_random

/-- Process-level state that `select_optimal_wipe_method` depends on:
Python's salted `str.__hash__` (`strHash`), whether `self.method_selector`
is non-`None` (`hasModel`), and the classifier's `predict` outcome on a
feature vector (`none` models `predict` raising an exception). -/
structure ProcessState where
  strHash : String → Nat
  hasModel : Bool
  predict : List ℚ → Option Int

/-- The `method_features` vector built by `select_optimal_wipe_method`. -/
def methodFeatures (ps : ProcessState) (d : DeviceInfo) : List ℚ :=
  [ ((ps.strHash (deviceTypeValue d.device_type)) % 10 : ℕ),
    d.size_gb,
    if d.encryption_status ≠ "None" then 1 else 0,
    if d.secure_erase_supported then 1 else 0,
    if d.hpa_dco_present then 1 else 0,
    ((ps.strHash d.interface) % 10 : ℕ) ]

/-- The model prediction consulted by `select_optimal_wipe_method`
(`none` when there is no model or `predict` raises). -/
def modelPrediction (ps : ProcessState) (d : DeviceInfo) : Option Int :=
  if ps.hasModel then ps.predict (methodFeatures ps d) else none

/-- The `AIWipeEngine.select_optimal_wipe_method`: use the AI prediction when it
is in range `[0, len(WipeMethod))`, otherwise fall through to the
rule-based selection. -/
def selectOptimalWipeMethod (ps : ProcessState) (d : DeviceInfo) : WipeMethod :=
  match modelPrediction ps d with
  | some p =>
      if 0 ≤ p ∧ p < 7 then wipeMethodList.getD p.toNat .factory_reset
      else ruleBasedMethodSelection d
  | none => ruleBasedMethodSelection d

/-- The rule ladder exactly as §4.2 of the specification words it, written
independently of the source for comparison. -/
def specSelectorLadder (d : DeviceInfo) : WipeMethod :=
  if d.encryption_status = "LUKS" ∨ d.encryption_status = "BitLocker" then
    .crypto_erase
  else
    match d.device_type with
    | .ssd_nvme =>
        if d.secure_erase_supported then .nvme_secure_erase else .nvme_crypto_erase
    | .ssd_sata =>
        if d.secure_erase_supported then .ata_secure_erase else .single_pass_random
    | .emmc =>
        if d.secure_erase_supported then .ata_secure_erase else .single_pass_random
    | .hdd =>
        if d.secure_erase_supported then .ata_secure_erase else .multipass_overwrite
    | .usb => .single_pass_random
    | .unknown => .single_pass_random

/-! ## Error diagnosis (`AIWipeEngine.diagnose_and_resolve_errors`) -/
/-- ASCII lower-casing of one character (Python `str.lower` restricted to
the ASCII error messages the diagnosis table matches on). -/
def asciiLower (c : Char) : Char :=
  if 65 ≤ c.toNat ∧ c.toNat ≤ 90 then Char.ofNat (c.toNat + 32) else c

/-- The `errorMessage.lower()` as a character list. -/
def lowerData (s : String) : List Char := s.data.map asciiLower

/-- Python's `pat in l` substring test on character lists. -/
def infixOfList (pat : List Char) : List Char → Bool
  | [] => pat.isEmpty
  | c :: rest => pat.isPrefixOf (c :: rest) || infixOfList pat rest

/-- The `pat in e` for an already-lowered message `e`. -/
def containsPat (e : List Char) (pat : String) : Bool := infixOfList pat.data e

/-- The resolution dict returned by `diagnose_and_resolve_errors`. -/
structure ErrorResolution where
  diagnosis : String
  suggested_actions : List String
  alternative_method : Option WipeMethod
  confidence : ℚ
  deriving DecidableEq, Repr

/-- The `AIWipeEngine.diagnose_and_resolve_errors` (the `context` argument of
the source is ignored by its body and omitted here). -/
def diagnoseAndResolveErrors (errorMessage : String) : ErrorResolution :=
  if containsPat (lowerData errorMessage) "permission denied" then
    { diagnosis := "Insufficient permissions",
      suggested_actions := ["Run as root/administrator", "Check device permissions"],
      alternative_method := none, confidence := 9/10 }
  else if containsPat (lowerData errorMessage) "device busy" ||
      containsPat (lowerData errorMessage) "resource busy" then
    { diagnosis := "Device is mounted or in use",
      suggested_actions :=
        ["Unmount device", "Stop processes using device", "Kill fuser processes"],
      alternative_method := none, confidence := 95/100 }
  else if containsPat (lowerData errorMessage) "not supported" then
    { diagnosis := "Operation not supported by device",
      suggested_actions := ["Try alternative wipe method"],
      alternative_method := some .single_pass_random, confidence := 8/10 }
  else if containsPat (lowerData errorMessage) "timeout" then
    { diagnosis := "Operation timeout",
      suggested_actions := ["Increase timeout", "Check device health", "Try slower method"],
      alternative_method := none, confidence := 7/10 }
  else
    { diagnosis := "Unknown error",
      suggested_actions := ["Check system logs", "Retry operation"],
      alternative_method := none, confidence := 1/2 }

/-! ## Wipe operation lifecycle (`wipe_core/wipe_engine.py`) -/
/-- The `WipeStatus` enum. -/
inductive WipeStatus
  | not_started
  | in_progress
  | completed
  | failed
  | cancelled
  deriving DecidableEq, Repr

/-- The `.value` string of a `WipeStatus` member. -/
def wipeStatusValue : WipeStatus → String
  | .not_started => "not_started"
  | .in_progress => "in_progress"
  | .completed => "completed"
  | .failed => "failed"
  | .cancelled => "cancelled"

/-- The `WipeOperation` dataclass.  Times are `time.time()` floats, modelled as
`ℚ`; the verification-hashes dict is an association list. -/
structure WipeOperation where
  device_info : DeviceInfo
  method : WipeMethod
  start_time : Option ℚ := none
  end_time : Option ℚ := none
  status : WipeStatus := .not_started
  progress : ℚ := 0
  error_message : Option String := none
  operation_log : List String := []
  verification_hashes : List (String × String) := []
  deriving DecidableEq, Repr

/-- Oracle for one `WipeCore.execute_wipe` run: the clock values observed,
the boolean results of `_pre_wipe_checks`, `_execute_wipe_method` (per
method, so that a retried method reads a fresh outcome) and
`_post_wipe_verification`, and an exception escaping the `try` body, if
any (`raised`).  In the source every helper catches its own exceptions, so
`raised` models only unexpected failures of the body itself. -/
structure ExecEnv where
  now : ℚ
  endNow : ℚ
  preChecksOk : Bool
  preError : Option String
  methodOk : WipeMethod → Bool
  verifyOk : Bool
  raised : Option String

/-- The `WipeCore.execute_wipe`, as the final operation record and the returned
boolean.  The device-registry lookup at the top of the source function is
outside this model (the operation is passed directly). -/
def executeWipe (env : ExecEnv) (op0 : WipeOperation) : WipeOperation × Bool :=
  let op := { op0 with start_time := some env.now, status := WipeStatus.in_progress }
  match env.raised with
  | some e =>
      let op := { op with status := WipeStatus.failed, error_message := some e }
      let r := diagnoseAndResolveErrors e
      let op := { op with operation_log := op.operation_log ++
        ["Error diagnosis: " ++ r.diagnosis,
         "Suggested actions: " ++ String.intercalate (", ") r.suggested_actions] }
      match r.alternative_method with
      | some alt =>
          if r.confidence > 7/10 then
            let op := { op with
              operation_log := op.operation_log ++
                ["Trying alternative method: " ++ wipeMethodValue alt],
              method := alt }
            (op, env.methodOk alt)
          else (op, false)
      | none => (op, false)
  | none =>
      if env.preChecksOk then
        if env.methodOk op.method then
          if env.verifyOk then
            ({ op with status := WipeStatus.completed, end_time := some env.endNow,
                       progress := 100 }, true)
          else
            ({ op with status := WipeStatus.failed,
                       error_message := some ("Post-wipe verification failed") }, false)
        else ({ op with status := WipeStatus.failed }, false)
      else
        ({ op with status := WipeStatus.failed, error_message := env.preError }, false)

/-! ## Tamper-proof log chain (`TamperProofLogger`) -/
/-- The `LogEntry` dataclass of the certificate engine.  `timestamp` is a
`time.time()` float that is only ever consumed through its f-string
rendering, so it is carried as that rendered string. -/
structure LogEntry where
  timestamp : String
  entry_id : String
  message : String
  level : String
  previous_hash : String
  entry_hash : String
  deriving DecidableEq, Repr

/-- The 64-zero genesis hash of `TamperProofLogger`. -/
def genesisHash : String :=
  "0000000000000000000000000000000000000000000000000000000000000000"

/-- The `LogEntry.calculate_hash`: SHA-256 (abstract parameter `H`) of the
f-string concatenation of the five signed fields. -/
def calcEntryHash (H : String → String) (e : LogEntry) : String :=
  H (e.timestamp ++ e.entry_id ++ e.message ++ e.level ++ e.previous_hash)

/-- The entry constructed by `TamperProofLogger.add_entry` (timestamp and
uuid are oracle arguments), with `entry_hash` filled by `__post_init__`. -/
def newLogEntry (H : String → String) (prev ts id msg lvl : String) : LogEntry :=
  let e : LogEntry :=
    { timestamp := ts, entry_id := id, message := msg, level := lvl,
      previous_hash := prev, entry_hash := "" }
  { e with entry_hash := calcEntryHash H e }

/-- The `TamperProofLogger.add_entry` on the chain list. -/
def addEntry (H : String → String) (chain : List LogEntry)
    (ts id msg lvl : String) : List LogEntry :=
  let prev := ((chain.getLast?).map LogEntry.entry_hash).getD genesisHash
  chain ++ [newLogEntry H prev ts id msg lvl]

/-- The loop of `TamperProofLogger.verify_chain_integrity`, threading the
expected previous hash. -/
def verifyFrom (H : String → String) (expected : String) : List LogEntry → Bool
  | [] => true
  | e :: rest =>
      if e.previous_hash ≠ expected then false
      else if e.entry_hash ≠ calcEntryHash H e then false
      else verifyFrom H e.entry_hash rest

/-- The `TamperProofLogger.verify_chain_integrity`. -/
def verifyChain (H : String → String) (chain : List LogEntry) : Bool :=
  verifyFrom H genesisHash chain

/-- The expected-previous value after walking `chain` from `expected`
(the tail hash `add_entry` links to). -/
def chainTip (expected : String) (chain : List LogEntry) : String :=
  ((chain.getLast?).map LogEntry.entry_hash).getD expected

/-- One append request (the oracle data `add_entry` consumes). -/
structure AppendReq where
  ts : String
  id : String
  msg : String
  lvl : String

/-- A sequence of `add_entry` calls. -/
def addEntries (H : String → String) (chain : List LogEntry)
    (reqs : List AppendReq) : List LogEntry :=
  reqs.foldl (fun ch r => addEntry H ch r.ts r.id r.msg r.lvl) chain

/-- Mutating exactly one of the `message`, `timestamp`, `level` or
`previous_hash` fields of an entry (its stored `entry_hash` and the other
fields unchanged), as in the tampering clause of the claim. -/
def mutatedEntry (e e' : LogEntry) : Prop :=
  e'.entry_hash = e.entry_hash ∧ e'.entry_id = e.entry_id ∧
  ((e'.message ≠ e.message ∧ e'.timestamp = e.timestamp ∧ e'.level = e.level ∧
      e'.previous_hash = e.previous_hash) ∨
   (e'.timestamp ≠ e.timestamp ∧ e'.message = e.message ∧ e'.level = e.level ∧
      e'.previous_hash = e.previous_hash) ∨
   (e'.level ≠ e.level ∧ e'.message = e.message ∧ e'.timestamp = e.timestamp ∧
      e'.previous_hash = e.previous_hash) ∨
   (e'.previous_hash ≠ e.previous_hash ∧ e'.message = e.message ∧
      e'.timestamp = e.timestamp ∧ e'.level = e.level))

/-! ## Post-wipe verification (`WipeCore._post_wipe_verification`) -/
/-- The `sample_count = min(100, int(operation.device_info.size_gb))`. -/
def postWipeSampleCount (d : DeviceInfo) : ℕ := min 100 (Int.toNat ⌊d.size_gb⌋)

/-- The stride `size_gb * 1024 * 1024 * 1024 // 512 // sample_count`:
`size_gb` is a Python float, so both floor divisions are float operations
and the result is a float with an integral value — modelled as that value
in `ℚ`, keeping the float typing of the expression. -/
def sectorSpacing (d : DeviceInfo) : ℚ :=
  ((⌊(⌊d.size_gb * 1073741824 / 512⌋ : ℚ) / (postWipeSampleCount d : ℚ)⌋ : ℤ) : ℚ)

/-- The sector value at loop index `i`: `int * float` is a float (`0.0`
already at `i = 0`). -/
def postWipeSector (d : DeviceInfo) (i : ℕ) : ℚ := i * sectorSpacing d

/-- CPython `file.seek` requires an integer (`__index__`-able) offset and
raises `TypeError` for every float argument, integral-valued or not
(`f.seek(2.0)` raises); it never yields a file position for a float
offset. -/
def pySeekFloat : ℚ → Option ℤ := fun _ => none

/-- The `WipeCore._verify_sector_wiped`, at the float sector values
`_post_wipe_verification` passes it: seek to `sector * 512` (a float, so
the seek raises `TypeError`), read 512 bytes (the oracle `readAt`, `none`
for an I/O failure) and accept at most two distinct byte values; the bare
`except` converts any exception into `False`.  Since the seek always
raises before the read, the distinct-bytes branch is unreachable and
every call returns `False`. -/
def verifySectorWiped (readAt : ℤ → Option (List ℕ)) (sector : ℚ) : Bool :=
  match pySeekFloat (sector * 512) with
  | none => false
  | some off =>
      match readAt off with
      | some data => data.dedup.length ≤ 2
      | none => false

/-- The `WipeCore._post_wipe_verification`: sample the strided sectors, failing
on the first sector that does not verify. -/
def postWipeVerification (readAt : ℤ → Option (List ℕ)) (d : DeviceInfo) : Bool :=
  (List.range (postWipeSampleCount d)).all fun i =>
    verifySectorWiped readAt (postWipeSector d i)

/-! ## Progress notifications (`WipeCore`)

The values passed to `_notify_progress`, per emission site, with the
unobservable quantities (poll times, bytes written so far, loop counts)
as oracle parameters. -/
/-- The single `_notify_progress` value of `_pre_wipe_checks`. -/
def preFlightTrace : List ℚ := [10]

/-- The estimated in-progress value of the ATA / NVMe secure-erase
monitors: `min(30.0 + (elapsed / estimated_duration) * 60.0, 90.0)`. -/
def estimatedProgress (est e : ℚ) : ℚ := min (30 + e / est * 60) 90

/-- The notification values of `_ata_secure_erase` (and structurally of
`_nvme_secure_erase`): `30.0` after the password step, one estimated value
per monitor poll, `90.0` on success. -/
def ataTrace (est : ℚ) (elapsed : List ℚ) (ok : Bool) : List ℚ :=
  30 :: (elapsed.map (estimatedProgress est) ++ if ok then [90] else [])

/-- The notification values of `_monitor_dd_progress` starting from stored
progress `p`: on each of `n` polls, while `p < 80`, increment the stored
progress by 2 and notify it. -/
def ddMonitorTrace (p : ℚ) : ℕ → List ℚ
  | 0 => []
  | n + 1 =>
      if p < 80 then (p + 2) :: ddMonitorTrace (p + 2) n
      else ddMonitorTrace p n

/-- The notification values of `_single_pass_random`: the dd monitor from
the operation's current progress, then `90.0` on success. -/
def singlePassTrace (startP : ℚ) (polls : ℕ) (ok : Bool) : List ℚ :=
  ddMonitorTrace startP polls ++ if ok then [90] else []

/-- The per-chunk notification values of `_overwrite_device` for one pass:
`progress_base + written / device_size * 20.0`. -/
def overwriteTrace (base size : ℚ) (writtenVals : List ℚ) : List ℚ :=
  writtenVals.map fun w => base + w / size * 20

/-- The notification values of `_multipass_overwrite` on success: three
passes with bases 30, 50, 70, each followed by a pass-completed value. -/
def multipassTrace (size : ℚ) (w1 w2 w3 : List ℚ) : List ℚ :=
  (overwriteTrace 30 size w1 ++ [50]) ++ (overwriteTrace 50 size w2 ++ [70]) ++
    (overwriteTrace 70 size w3 ++ [90])

/-- The notification values of `_post_wipe_verification`: every tenth loop
index notifies `90.0 + (i / sample_count) * 10.0`; `checked` is the number
of loop iterations reached before a failing sector (or `count`). -/
def verificationTrace (count checked : ℕ) : List ℚ :=
  ((List.range checked).filter fun i => i % 10 = 0).map fun (i : ℕ) =>
    90 + (i : ℚ) / count * 10

/-- The full notification sequence of a successful `single_pass_random`
run of `execute_wipe`: pre-flight, dd monitor (from the operation's
initial stored progress `0.0`), the 90 on overwrite success, verification
samples, and the final 100 on completion. -/
def runTraceSinglePass (polls count checked : ℕ) : List ℚ :=
  preFlightTrace ++ singlePassTrace 0 polls true ++
    verificationTrace count checked ++ [100]

/-! ## Canonical JSON (`json.dumps(..., sort_keys=True, separators=(',', ':'))`)

The byte form the certificate engine signs and verifies.  Strings are
escaped exactly as CPython's `json` encoder with `ensure_ascii=True`:
backslash and quote get two-character escapes, the five short control
escapes are used, all other characters outside `0x20..0x7e` become
`\uXXXX` (lower-case hex, surrogate pairs beyond the BMP). -/
/-- Lower-case hex digit. -/
def hexDigitChar (n : ℕ) : Char :=
  if n < 10 then Char.ofNat (48 + n) else Char.ofNat (87 + n)

/-- Four-digit lower-case hex rendering of `n < 0x10000`. -/
def hex4 (n : ℕ) : List Char :=
  [hexDigitChar (n / 4096 % 16), hexDigitChar (n / 256 % 16),
   hexDigitChar (n / 16 % 16), hexDigitChar (n % 16)]

/-- JSON escape of one character (CPython `ensure_ascii` behaviour). -/
def escChar (c : Char) : List Char :=
  if c = '\\' then ['\\', '\\']
  else if c = '"' then ['\\', '"']
  else if c.toNat = 8 then ['\\', 'b']
  else if c.toNat = 9 then ['\\', 't']
  else if c.toNat = 10 then ['\\', 'n']
  else if c.toNat = 12 then ['\\', 'f']
  else if c.toNat = 13 then ['\\', 'r']
  else if 32 ≤ c.toNat ∧ c.toNat ≤ 126 then [c]
  else if c.toNat < 65536 then '\\' :: 'u' :: hex4 c.toNat
  else
    '\\' :: 'u' :: hex4 (55296 + (c.toNat - 65536) / 1024) ++
      ('\\' :: 'u' :: hex4 (56320 + (c.toNat - 65536) % 1024))

/-- JSON escape of a character list. -/
def escList : List Char → List Char
  | [] => []
  | c :: rest => escChar c ++ escList rest

/-- Value of a lower-case hex digit (decoder side). -/
def hexVal (c : Char) : ℕ :=
  if 48 ≤ c.toNat ∧ c.toNat ≤ 57 then c.toNat - 48
  else if 97 ≤ c.toNat ∧ c.toNat ≤ 102 then c.toNat - 87
  else 0

/-- Read four hex digits. -/
def unhex4 : List Char → Option (ℕ × List Char)
  | a :: b :: c :: d :: rest =>
      some (4096 * hexVal a + 256 * hexVal b + 16 * hexVal c + hexVal d, rest)
  | _ => none

/-- The short escapes, inverted. -/
def unescapeShort (e : Char) : Option Char :=
  if e = '\\' then some '\\'
  else if e = '"' then some '"'
  else if e = 'b' then some (Char.ofNat 8)
  else if e = 't' then some (Char.ofNat 9)
  else if e = 'n' then some (Char.ofNat 10)
  else if e = 'f' then some (Char.ofNat 12)
  else if e = 'r' then some (Char.ofNat 13)
  else none

/-- Decode one escaped character; inverse of `escChar` (used only to prove
`escChar` prefix-determined, not part of the modelled program). -/
def decChar : List Char → Option (Char × List Char)
  | [] => none
  | c :: rest =>
      if c = '\\' then
        match rest with
        | [] => none
        | e :: rest2 =>
            if e = 'u' then
              match unhex4 rest2 with
              | some (v, rest3) =>
                  if 55296 ≤ v ∧ v < 56320 then
                    match rest3 with
                    | '\\' :: 'u' :: rest4 =>
                        match unhex4 rest4 with
                        | some (w, rest5) =>
                            some (Char.ofNat (65536 + (v - 55296) * 1024 + (w - 56320)),
                              rest5)
                        | none => none
                    | _ => none
                  else some (Char.ofNat v, rest3)
              | none => none
            else
              match unescapeShort e with
              | some c2 => some (c2, rest2)
              | none => none
      else some (c, rest)

/-! ### Continuation-style serializers

Each serializer takes the remainder of the output as an explicit
continuation, so that prefix-determinacy lemmas compose. -/
/-- A literal chunk: one known character followed by a literal string. -/
def chunkC (c : Char) (s : String) (k : List Char) : List Char :=
  c :: (s.data ++ k)

/-- JSON string literal. -/
def jstrC (s : String) (k : List Char) : List Char :=
  '"' :: (escList s.data ++ ('"' :: k))

/-- JSON number, carried as its Python `repr` string. -/
def jnumC (s : String) (k : List Char) : List Char := s.data ++ k

/-- JSON boolean. -/
def jboolC : Bool → List Char → List Char
  | true, k => "true".data ++ k
  | false, k => "false".data ++ k

/-- JSON `null` or string. -/
def joptStrC : Option String → List Char → List Char
  | none, k => "null".data ++ k
  | some s, k => jstrC s k

/-- JSON `null` or number. -/
def joptNumC : Option String → List Char → List Char
  | none, k => "null".data ++ k
  | some s, k => jnumC s k

/-- Comma-separated rendering of a list (no enclosing brackets). -/
def commaSepC (f : α → List Char → List Char) : List α → List Char → List Char
  | [], k => k
  | [a], k => f a k
  | a :: b :: rest, k => f a (',' :: commaSepC f (b :: rest) k)

/-- JSON array. -/
def jarrC (f : α → List Char → List Char) (l : List α) (k : List Char) : List Char :=
  '[' :: commaSepC f l (']' :: k)

/-- One entry of a string-to-string JSON object. -/
def jpairC (p : String × String) (k : List Char) : List Char :=
  jstrC p.1 (':' :: jstrC p.2 k)

/-- A string-to-string JSON object from an association list (the model
keeps dict association lists in their serialized key order). -/
def jobjC (l : List (String × String)) (k : List Char) : List Char :=
  '\x7b' :: commaSepC jpairC l ('\x7d' :: k)

/-- Well-formedness of a number `repr` string, as required for the
canonical form to be prefix-determined: non-empty, does not start with
`n` (distinguishing it from `null`) and contains no `,` or closing
brace (the only characters that may follow a number in our records). -/
def numOk (s : String) : Prop :=
  s.data ≠ [] ∧ s.data.head? ≠ some 'n' ∧ ',' ∉ s.data ∧ '\x7d' ∉ s.data

instance : DecidablePred numOk := fun s => by
  unfold numOk
  infer_instance

/-- The `numOk` on an optional number. -/
def numOkOpt (o : Option String) : Prop := ∀ s ∈ o, numOk s

/-! ### Certificate data (`CertificateData` and `_prepare_certificate_data`) -/
/-- The sanitized `device_info` dict of the certificate. -/
structure CertDeviceInfo where
  device_path_hash : String
  device_type : String
  model : String
  serial_hash : String
  size_gb : String
  interface : String
  encryption_status : String
  hpa_dco_present : Bool
  secure_erase_supported : Bool
  deriving DecidableEq, Repr

/-- The `wipe_operation` dict of the certificate. -/
structure CertWipeOp where
  method : String
  status : String
  start_time : Option String
  end_time : Option String
  duration_seconds : Option String
  progress : String
  error_message : Option String
  deriving DecidableEq, Repr

/-- One `operation_log` projection entry (note: no `previous_hash`). -/
structure CertLogEntry where
  timestamp : String
  entry_id : String
  message : String
  level : String
  entry_hash : String
  deriving DecidableEq, Repr

/-- The `tool_info` dict. -/
structure ToolInfo where
  name : String
  version : String
  build_hash : String
  signer_fingerprint : String
  deriving DecidableEq, Repr

/-- The `compliance_info` dict. -/
structure ComplianceInfo where
  standards : List String
  method_classification : String
  verification_level : String
  deriving DecidableEq, Repr

/-- The `CertificateData` dataclass. -/
structure CertificateData where
  certificate_id : String
  timestamp : String
  device_info : CertDeviceInfo
  wipe_operation : CertWipeOp
  verification_hashes : List (String × String)
  operation_log : List CertLogEntry
  tool_info : ToolInfo
  compliance_info : ComplianceInfo
  signature : String
  blockchain_anchor : Option String
  deriving DecidableEq, Repr

/-- The `device_info`, keys in sorted order. -/
def serDeviceInfoC (d : CertDeviceInfo) (k : List Char) : List Char :=
  chunkC '\x7b' "\"device_path_hash\":" <|
  jstrC d.device_path_hash <|
  chunkC ',' "\"device_type\":" <|
  jstrC d.device_type <|
  chunkC ',' "\"encryption_status\":" <|
  jstrC d.encryption_status <|
  chunkC ',' "\"hpa_dco_present\":" <|
  jboolC d.hpa_dco_present <|
  chunkC ',' "\"interface\":" <|
  jstrC d.interface <|
  chunkC ',' "\"model\":" <|
  jstrC d.model <|
  chunkC ',' "\"secure_erase_supported\":" <|
  jboolC d.secure_erase_supported <|
  chunkC ',' "\"serial_hash\":" <|
  jstrC d.serial_hash <|
  chunkC ',' "\"size_gb\":" <|
  jnumC d.size_gb ('\x7d' :: k)

/-- The `wipe_operation`, keys in sorted order. -/
def serWipeOpC (w : CertWipeOp) (k : List Char) : List Char :=
  chunkC '\x7b' "\"duration_seconds\":" <|
  joptNumC w.duration_seconds <|
  chunkC ',' "\"end_time\":" <|
  joptNumC w.end_time <|
  chunkC ',' "\"error_message\":" <|
  joptStrC w.error_message <|
  chunkC ',' "\"method\":" <|
  jstrC w.method <|
  chunkC ',' "\"progress\":" <|
  jnumC w.progress <|
  chunkC ',' "\"start_time\":" <|
  joptNumC w.start_time <|
  chunkC ',' "\"status\":" <|
  jstrC w.status ('\x7d' :: k)

/-- One `operation_log` entry, keys in sorted order. -/
def serLogEntryC (e : CertLogEntry) (k : List Char) : List Char :=
  chunkC '\x7b' "\"entry_hash\":" <|
  jstrC e.entry_hash <|
  chunkC ',' "\"entry_id\":" <|
  jstrC e.entry_id <|
  chunkC ',' "\"level\":" <|
  jstrC e.level <|
  chunkC ',' "\"message\":" <|
  jstrC e.message <|
  chunkC ',' "\"timestamp\":" <|
  jnumC e.timestamp ('\x7d' :: k)

/-- The `tool_info`, keys in sorted order. -/
def serToolInfoC (t : ToolInfo) (k : List Char) : List Char :=
  chunkC '\x7b' "\"build_hash\":" <|
  jstrC t.build_hash <|
  chunkC ',' "\"name\":" <|
  jstrC t.name <|
  chunkC ',' "\"signer_fingerprint\":" <|
  jstrC t.signer_fingerprint <|
  chunkC ',' "\"version\":" <|
  jstrC t.version ('\x7d' :: k)

/-- The `compliance_info`, keys in sorted order. -/
def serComplianceC (ci : ComplianceInfo) (k : List Char) : List Char :=
  chunkC '\x7b' "\"method_classification\":" <|
  jstrC ci.method_classification <|
  chunkC ',' "\"standards\":" <|
  jarrC jstrC ci.standards <|
  chunkC ',' "\"verification_level\":" <|
  jstrC ci.verification_level ('\x7d' :: k)

/-- The canonical JSON `_sign_certificate` and `verify_certificate` agree
on: `asdict(certificate_data)` with the `signature` and
`blockchain_anchor` keys popped, `sort_keys=True`, compact separators. -/
def canonicalSansSigC (c : CertificateData) (k : List Char) : List Char :=
  chunkC '\x7b' "\"certificate_id\":" <|
  jstrC c.certificate_id <|
  chunkC ',' "\"compliance_info\":" <|
  serComplianceC c.compliance_info <|
  chunkC ',' "\"device_info\":" <|
  serDeviceInfoC c.device_info <|
  chunkC ',' "\"operation_log\":" <|
  jarrC serLogEntryC c.operation_log <|
  chunkC ',' "\"timestamp\":" <|
  jstrC c.timestamp <|
  chunkC ',' "\"tool_info\":" <|
  serToolInfoC c.tool_info <|
  chunkC ',' "\"verification_hashes\":" <|
  jobjC c.verification_hashes <|
  chunkC ',' "\"wipe_operation\":" <|
  serWipeOpC c.wipe_operation ('\x7d' :: k)

/-- The canonical signable byte string of a certificate. -/
def canonicalSansSig (c : CertificateData) : List Char := canonicalSansSigC c []

/-- Number well-formedness for the four numeric slots of `wipe_operation`. -/
def wipeOpNumOk (w : CertWipeOp) : Prop :=
  numOkOpt w.duration_seconds ∧ numOkOpt w.end_time ∧ numOk w.progress ∧
    numOkOpt w.start_time

/-- Number well-formedness across a certificate (every numeric field is a
well-formed float `repr`). -/
def certNumOk (c : CertificateData) : Prop :=
  numOk c.device_info.size_gb ∧ wipeOpNumOk c.wipe_operation ∧
    ∀ e ∈ c.operation_log, numOk e.timestamp

/-- A certificate with its unsigned slots cleared: the value the canonical
form actually binds. -/
def stripSig (c : CertificateData) : CertificateData :=
  { c with signature := "", blockchain_anchor := none }

/-! ## Certificate builder and verifier (`CertificateGenerator`) -/
/-- The `_get_nist_classification`: the classification table keyed by
`method.value` (all seven enum values are present, so the `"Unknown"`
default is unreachable). -/
def nistClassification : WipeMethod → String
  | .ata_secure_erase => "Purge"
  | .nvme_secure_erase => "Purge"
  | .nvme_crypto_erase => "Purge"
  | .crypto_erase => "Purge"
  | .multipass_overwrite => "Purge"
  | .single_pass_random => "Clear"
  | .factory_reset => "Clear"

/-- Python truthiness of an optional float (`None` and `0.0` are falsy). -/
def pyTruthyOpt : Option ℚ → Bool
  | none => false
  | some q => decide (q ≠ 0)

/-- The `CertificateGenerator._prepare_certificate_data`.

Oracle parameters: `hashHex16` is `sha256(x).hexdigest()[:16]`, `fmt` is
Python float `repr`, `fingerprint` is
`signer.get_public_key_fingerprint()`, and `certId` / `ts` are the
freshly generated `uuid4` and UTC timestamp of this build. -/
def prepareCertificateData (hashHex16 : String → String) (fmt : ℚ → String)
    (fingerprint certId ts : String) (op : WipeOperation)
    (chain : List LogEntry) : CertificateData :=
  { certificate_id := certId
    timestamp := ts
    device_info :=
      { device_path_hash := hashHex16 op.device_info.device_path
        device_type := deviceTypeValue op.device_info.device_type
        model := op.device_info.model
        serial_hash := hashHex16 op.device_info.serial
        size_gb := fmt op.device_info.size_gb
        interface := op.device_info.interface
        encryption_status := op.device_info.encryption_status
        hpa_dco_present := op.device_info.hpa_dco_present
        secure_erase_supported := op.device_info.secure_erase_supported }
    wipe_operation :=
      { method := wipeMethodValue op.method
        status := wipeStatusValue op.status
        start_time := op.start_time.map fmt
        end_time := op.end_time.map fmt
        duration_seconds :=
          if pyTruthyOpt op.end_time && pyTruthyOpt op.start_time then
            some (fmt ((op.end_time.getD 0) - (op.start_time.getD 0)))
          else none
        progress := fmt op.progress
        error_message := op.error_message }
    verification_hashes := op.verification_hashes
    operation_log := chain.map fun e =>
      { timestamp := e.timestamp
        entry_id := e.entry_id
        message := e.message
        level := e.level
        entry_hash := e.entry_hash }
    tool_info :=
      { name := "VeriWipe"
        version := "1.0.0"
        build_hash := "development"
        signer_fingerprint := fingerprint }
    compliance_info :=
      { standards := ["NIST SP 800-88"]
        method_classification := nistClassification op.method
        verification_level :=
          if op.verification_hashes.isEmpty then ("None") else ("Basic") }
    signature := ""
    blockchain_anchor := none }

/-- The `CertificateGenerator._sign_certificate`: ECDSA-sign (abstract `sign`)
the canonical JSON with `signature` and `blockchain_anchor` removed. -/
def signCertificate (sign : List Char → String) (c : CertificateData) : String :=
  sign (canonicalSansSig c)

/-- The `CertificateGenerator.generate_certificate`, as the certificate value
it emits (prepare, then attach the signature). -/
def generateCertificate (sign : List Char → String) (hashHex16 : String → String)
    (fmt : ℚ → String) (fingerprint certId ts : String) (op : WipeOperation)
    (chain : List LogEntry) : CertificateData :=
  let c := prepareCertificateData hashHex16 fmt fingerprint certId ts op chain
  { c with signature := signCertificate sign c }

/-- The `CertificateGenerator.verify_certificate` on a parsed certificate
value: pop `signature` and `blockchain_anchor`, re-serialize canonically
and check the signature (abstract `sigVerify`); the result's `valid`
field. -/
def verifyCertificate (sigVerify : List Char → String → Bool)
    (c : CertificateData) : Bool :=
  sigVerify (canonicalSansSig c) c.signature

/-! ## Shared concrete samples (used by counterexamples and witnesses) -/
/-- A concrete USB flash device. -/
def sampleUsbDevice : DeviceInfo :=
  { device_path := "/dev/sdb"
    device_type := DeviceType.usb
    model := "Generic Flash"
    serial := "SER123"
    size_gb := 8
    interface := "usb"
    encryption_status := "None"
    hpa_dco_present := false
    secure_erase_supported := false }

/-- A process state whose model path is dead (no model loaded). -/
def psNoModel : ProcessState :=
  { strHash := fun _ => 0, hasModel := false, predict := fun _ => none }

/-- A process state whose model predicts index 6 (`factory_reset`) on
every feature vector. -/
def psPredictSix : ProcessState :=
  { strHash := fun _ => 0, hasModel := true, predict := fun _ => some 6 }

/-- A concrete pending multipass operation on the sample device. -/
def sampleOp : WipeOperation :=
  { device_info := sampleUsbDevice, method := WipeMethod.multipass_overwrite }

/-- A run in which the wipe method raises an `unsupported`-style error and
every phase oracle otherwise succeeds. -/
def envUnsupported : ExecEnv :=
  { now := 0, endNow := 1, preChecksOk := true, preError := none,
    methodOk := fun _ => true, verifyOk := true,
    raised := some ("Operation not supported by device") }

/-- A run in which the wipe method raises a timeout. -/
def envTimeout : ExecEnv :=
  { now := 0, endNow := 1, preChecksOk := true, preError := none,
    methodOk := fun _ => true, verifyOk := true,
    raised := some ("Operation timeout after 300 seconds") }

/-- A device whose reported capacity is below one gigabyte. -/
def tinyDevice : DeviceInfo :=
  { sampleUsbDevice with size_gb := 0 }

/-- A read oracle on which every sector fails the wipe check (four
distinct byte values). -/
def readAllDirty : ℤ → Option (List ℕ) := fun _ => some [0, 1, 2, 3]

/-- A read oracle returning 512 zero bytes at every integer offset —
content the claimed pass criterion would accept (one distinct value). -/
def readAllZeros : ℤ → Option (List ℕ) := fun _ => some (List.replicate 512 0)

/-- A concrete collision-free hash model for witnesses. -/
def hPrepend : String → String := fun s => "h" ++ s

/-- A one-append chain under `hPrepend`. -/
def chainOne : List LogEntry :=
  addEntries hPrepend [] [{ ts := "1.0", id := "id1", msg := "m1", lvl := "INFO" }]

instance : DecidablePred numOkOpt := fun o =>
  match o with
  | none => isTrue (by simp [numOkOpt])
  | some s => decidable_of_iff (numOk s) (by simp [numOkOpt])

instance : DecidablePred wipeOpNumOk := fun w => by
  unfold wipeOpNumOk
  infer_instance

instance : DecidablePred certNumOk := fun c => by
  unfold certNumOk
  infer_instance

/-- A concrete deterministic signing model for witnesses: the signature is
the signed bytes themselves. -/
def signK : List Char → String := fun d => String.mk d

/-- The matching verification model: accept exactly the signed bytes. -/
def verifyK : List Char → String → Bool := fun d s => s == String.mk d

/-- A concrete hash oracle (constant, adequate for witnesses). -/
def hashK : String → String := fun _ => "h"

/-- A concrete float-`repr` oracle. -/
def fmtK : ℚ → String := fun _ => "1.0"

/-- A concrete certificate built from `sampleOp` and an empty log. -/
def sampleCert : CertificateData :=
  generateCertificate signK hashK fmtK ("fp") ("a") ("t") sampleOp []

/-! ## Lemmas and claim theorems -/

/-- The `hexVal` inverts `hexDigitChar` on digits. -/
theorem hexVal_hexDigitChar : ∀ n < 16, hexVal (hexDigitChar n) = n := by decide

/-- The `unhex4` inverts `hex4` on BMP values, leaving the remainder. -/
theorem unhex4_hex4 (v : ℕ) (hv : v < 65536) (r : List Char) :
    unhex4 (hex4 v ++ r) = some (v, r) := by
  have h1 := hexVal_hexDigitChar (v / 4096 % 16) (Nat.mod_lt _ (by norm_num))
  have h2 := hexVal_hexDigitChar (v / 256 % 16) (Nat.mod_lt _ (by norm_num))
  have h3 := hexVal_hexDigitChar (v / 16 % 16) (Nat.mod_lt _ (by norm_num))
  have h4 := hexVal_hexDigitChar (v % 16) (Nat.mod_lt _ (by norm_num))
  simp only [hex4, List.cons_append, List.nil_append, unhex4, h1, h2, h3, h4]
  have hv' : 4096 * (v / 4096 % 16) + 256 * (v / 256 % 16) + 16 * (v / 16 % 16) + v % 16 = v := by
    omega
  rw [hv']

/-- Characters (unicode scalar values) avoid the surrogate range. -/
theorem char_toNat_valid (c : Char) :
    c.toNat < 55296 ∨ (57343 < c.toNat ∧ c.toNat < 1114112) := by
  have h := c.valid
  rcases h with h | ⟨h1, h2⟩
  · left
    exact h
  · right
    exact ⟨h1, h2⟩

/-- Decoding inverts `escChar`, whatever follows. -/
theorem decChar_escChar (c : Char) (r : List Char) :
    decChar (escChar c ++ r) = some (c, r) := by
  unfold escChar
  split_ifs with h1 h2 h3 h4 h5 h6 h7 h8 h9
  · simp [h1, decChar, unescapeShort]
  · simp [h2, decChar, unescapeShort]
  · have hc : Char.ofNat 8 = c := by rw [← h3, Char.ofNat_toNat]
    simp [decChar, unescapeShort]
    exact hc
  · have hc : Char.ofNat 9 = c := by rw [← h4, Char.ofNat_toNat]
    simp [decChar, unescapeShort]
    exact hc
  · have hc : Char.ofNat 10 = c := by rw [← h5, Char.ofNat_toNat]
    simp [decChar, unescapeShort]
    exact hc
  · have hc : Char.ofNat 12 = c := by rw [← h6, Char.ofNat_toNat]
    simp [decChar, unescapeShort]
    exact hc
  · have hc : Char.ofNat 13 = c := by rw [← h7, Char.ofNat_toNat]
    simp [decChar, unescapeShort]
    exact hc
  · simp [decChar, h1]
  · have hns : ¬(55296 ≤ c.toNat ∧ c.toNat < 56320) := by
      rcases char_toNat_valid c with h | h <;> omega
    simp [decChar, unhex4_hex4 c.toNat h9 r, hns, Char.ofNat_toNat]
  · have hval := char_toNat_valid c
    have hn : c.toNat - 65536 < 1048576 := by omega
    have hv1 : 55296 + (c.toNat - 65536) / 1024 < 65536 := by omega
    have hv2 : 56320 + (c.toNat - 65536) % 1024 < 65536 := by
      have := Nat.mod_lt (c.toNat - 65536) (show 0 < 1024 by norm_num)
      omega
    have hsur : 55296 ≤ 55296 + (c.toNat - 65536) / 1024 ∧
        55296 + (c.toNat - 65536) / 1024 < 56320 := by omega
    have harith :
        65536 + (55296 + (c.toNat - 65536) / 1024 - 55296) * 1024 +
          (56320 + (c.toNat - 65536) % 1024 - 56320) = c.toNat := by omega
    simp only [List.cons_append, List.append_assoc, decChar, if_pos rfl]
    simp [unhex4_hex4 _ hv1, hsur, unhex4_hex4 _ hv2, harith, Char.ofNat_toNat]
    have harith2 :
        65536 + (c.toNat - 65536) / 1024 * 1024 + (c.toNat - 65536) % 1024 = c.toNat := by
      omega
    rw [harith2, Char.ofNat_toNat]

/-- The `escChar` emissions are prefix-determined: equal continuations of two
escapes force equal characters and equal remainders. -/
theorem escChar_det {c1 c2 : Char} {r1 r2 : List Char}
    (h : escChar c1 ++ r1 = escChar c2 ++ r2) : c1 = c2 ∧ r1 = r2 := by
  have h1 := decChar_escChar c1 r1
  have h2 := decChar_escChar c2 r2
  rw [h] at h1
  have h3 := Option.some.inj (h1.symm.trans h2)
  exact ⟨congrArg Prod.fst h3, congrArg Prod.snd h3⟩

/-- Every escape emission is non-empty and never starts with a raw quote. -/
theorem escChar_shape (c : Char) : ∃ hd tl, escChar c = hd :: tl ∧ hd ≠ '"' := by
  unfold escChar
  split_ifs with h1 h2 h3 h4 h5 h6 h7 h8 h9
  · exact ⟨'\\', _, rfl, by decide⟩
  · exact ⟨'\\', _, rfl, by decide⟩
  · exact ⟨'\\', _, rfl, by decide⟩
  · exact ⟨'\\', _, rfl, by decide⟩
  · exact ⟨'\\', _, rfl, by decide⟩
  · exact ⟨'\\', _, rfl, by decide⟩
  · exact ⟨'\\', _, rfl, by decide⟩
  · exact ⟨c, [], rfl, h2⟩
  · exact ⟨'\\', _, rfl, by decide⟩
  · exact ⟨'\\', _, rfl, by decide⟩

/-- The escaped body of a quoted string is determined up to its closing
quote. -/
theorem escList_quote_det :
    ∀ (l1 l2 r1 r2 : List Char),
      escList l1 ++ '"' :: r1 = escList l2 ++ '"' :: r2 → l1 = l2 ∧ r1 = r2 := by
  intro l1
  induction l1 with
  | nil =>
      intro l2 r1 r2 h
      cases l2 with
      | nil =>
          simp only [escList, List.nil_append, List.cons.injEq] at h
          exact ⟨rfl, h.2⟩
      | cons c l2' =>
          obtain ⟨hd, tl, he, hq⟩ := escChar_shape c
          simp only [escList, List.nil_append, he, List.cons_append,
            List.cons.injEq] at h
          exact absurd h.1.symm hq
  | cons c1 l1' ih =>
      intro l2 r1 r2 h
      cases l2 with
      | nil =>
          obtain ⟨hd, tl, he, hq⟩ := escChar_shape c1
          simp only [escList, List.nil_append, he, List.cons_append,
            List.cons.injEq] at h
          exact absurd h.1 hq
      | cons c2 l2' =>
          simp only [escList, List.append_assoc] at h
          obtain ⟨hc, hrest⟩ := escChar_det h
          obtain ⟨hl, hr⟩ := ih l2' r1 r2 hrest
          exact ⟨by rw [hc, hl], hr⟩

/-! ### Prefix-determinacy of the canonical form

Equal canonical byte strings force equal field values: each serializer is
determined together with its continuation. -/
/-- Literal chunks cancel. -/
theorem chunkC_inj {c : Char} {s : String} {k1 k2 : List Char}
    (h : chunkC c s k1 = chunkC c s k2) : k1 = k2 := by
  unfold chunkC at h
  exact List.append_cancel_left (List.cons.inj h).2

/-- JSON string literals are determined with their continuations. -/
theorem jstrC_det {s1 s2 : String} {k1 k2 : List Char}
    (h : jstrC s1 k1 = jstrC s2 k2) : s1 = s2 ∧ k1 = k2 := by
  unfold jstrC at h
  obtain ⟨hl, hk⟩ := escList_quote_det s1.data s2.data k1 k2 (List.cons.inj h).2
  exact ⟨String.ext hl, hk⟩

/-- JSON booleans are determined with their continuations. -/
theorem jboolC_det {b1 b2 : Bool} {k1 k2 : List Char}
    (h : jboolC b1 k1 = jboolC b2 k2) : b1 = b2 ∧ k1 = k2 := by
  cases b1 <;> cases b2 <;> simp only [jboolC] at h
  · exact ⟨rfl, List.append_cancel_left h⟩
  · exact absurd (List.cons.inj h).1 (by decide)
  · exact absurd (List.cons.inj h).1 (by decide)
  · exact ⟨rfl, List.append_cancel_left h⟩

/-- Splitting on a delimiter character that occurs in neither prefix. -/
theorem append_nodelim_det {d : Char} :
    ∀ (a b r s : List Char), d ∉ a → d ∉ b → a ++ d :: r = b ++ d :: s →
      a = b ∧ r = s := by
  intro a
  induction a with
  | nil =>
      intro b r s _ hb h
      cases b with
      | nil => simpa using h
      | cons x xs =>
          simp only [List.nil_append, List.cons_append, List.cons.injEq] at h
          exact absurd (h.1 ▸ List.mem_cons_self x xs) (h.1 ▸ hb)
  | cons x xs ih =>
      intro b r s ha hb h
      cases b with
      | nil =>
          simp only [List.cons_append, List.nil_append, List.cons.injEq] at h
          exact absurd
            (show d ∈ x :: xs by rw [h.1]; exact List.mem_cons_self d xs) ha
      | cons y ys =>
          simp only [List.cons_append, List.cons.injEq] at h
          obtain ⟨hab, hrs⟩ := ih ys r s (fun hm => ha (List.mem_cons_of_mem x hm))
            (fun hm => hb (List.mem_cons_of_mem y hm)) h.2
          exact ⟨by rw [h.1, hab], hrs⟩

/-- JSON numbers are determined up to a following `,` or `}`. -/
theorem jnumC_det {n1 n2 : String} {d : Char} {t1 t2 : List Char}
    (h1 : numOk n1) (h2 : numOk n2) (hd : d = ',' ∨ d = '\x7d')
    (h : jnumC n1 (d :: t1) = jnumC n2 (d :: t2)) : n1 = n2 ∧ t1 = t2 := by
  unfold jnumC at h
  have hn1 : d ∉ n1.data := by
    rcases hd with rfl | rfl
    · exact h1.2.2.1
    · exact h1.2.2.2
  have hn2 : d ∉ n2.data := by
    rcases hd with rfl | rfl
    · exact h2.2.2.1
    · exact h2.2.2.2
  obtain ⟨hl, ht⟩ := append_nodelim_det n1.data n2.data t1 t2 hn1 hn2 h
  exact ⟨String.ext hl, ht⟩

/-- Optional JSON numbers are determined up to a following `,` or `}`. -/
theorem joptNumC_det {o1 o2 : Option String} {d : Char} {t1 t2 : List Char}
    (h1 : numOkOpt o1) (h2 : numOkOpt o2) (hd : d = ',' ∨ d = '\x7d')
    (h : joptNumC o1 (d :: t1) = joptNumC o2 (d :: t2)) : o1 = o2 ∧ t1 = t2 := by
  cases o1 with
  | none =>
      cases o2 with
      | none =>
          simp only [joptNumC] at h
          exact ⟨rfl, by simpa using (List.append_cancel_left h)⟩
      | some s =>
          have hs := h2 s rfl
          simp only [joptNumC, jnumC] at h
          cases hsd : s.data with
          | nil => exact absurd hsd hs.1
          | cons c cs =>
              rw [hsd] at h
              simp only [List.cons_append, List.cons.injEq] at h
              have : s.data.head? = some 'n' := by rw [hsd, ← h.1]; rfl
              exact absurd this hs.2.1
  | some s =>
      cases o2 with
      | none =>
          have hs := h1 s rfl
          simp only [joptNumC, jnumC] at h
          cases hsd : s.data with
          | nil => exact absurd hsd hs.1
          | cons c cs =>
              rw [hsd] at h
              simp only [List.cons_append, List.cons.injEq] at h
              have : s.data.head? = some 'n' := by rw [hsd, h.1]; rfl
              exact absurd this hs.2.1
      | some s2 =>
          obtain ⟨hs, ht⟩ := jnumC_det (h1 s rfl) (h2 s2 rfl) hd h
          exact ⟨by rw [hs], ht⟩

/-- Optional JSON strings are determined with their continuations. -/
theorem joptStrC_det {o1 o2 : Option String} {k1 k2 : List Char}
    (h : joptStrC o1 k1 = joptStrC o2 k2) : o1 = o2 ∧ k1 = k2 := by
  cases o1 with
  | none =>
      cases o2 with
      | none =>
          simp only [joptStrC] at h
          exact ⟨rfl, by simpa using (List.append_cancel_left h)⟩
      | some s =>
          simp only [joptStrC, jstrC] at h
          exact absurd (List.cons.inj h).1 (by decide)
  | some s =>
      cases o2 with
      | none =>
          simp only [joptStrC, jstrC] at h
          exact absurd (List.cons.inj h).1 (by decide)
      | some s2 =>
          obtain ⟨hs, hk⟩ := jstrC_det h
          exact ⟨by rw [hs], hk⟩

/-- Comma-separated element lists are determined up to their closing
character, for element serializers that are themselves determined and
never emit a leading `,` or closer. -/
theorem commaSepC_det {α : Type} (f : α → List Char → List Char) (P : α → Prop)
    (cl : Char) (hcl : cl ≠ ',')
    (hdet : ∀ a1 a2 k1 k2, P a1 → P a2 → f a1 k1 = f a2 k2 → a1 = a2 ∧ k1 = k2)
    (hhead : ∀ a k, P a → ∃ c tl, f a k = c :: tl ∧ c ≠ cl ∧ c ≠ ',') :
    ∀ l1 l2 k1 k2, (∀ a ∈ l1, P a) → (∀ a ∈ l2, P a) →
      commaSepC f l1 (cl :: k1) = commaSepC f l2 (cl :: k2) → l1 = l2 ∧ k1 = k2 := by
  intro l1
  induction l1 with
  | nil =>
      intro l2 k1 k2 _ hP2 h
      cases l2 with
      | nil => exact ⟨rfl, (List.cons.inj h).2⟩
      | cons a2 l2' =>
          obtain ⟨c, tl, he, hc, _⟩ := hhead a2
            (match l2' with
             | [] => cl :: k2
             | b :: r => ',' :: commaSepC f (b :: r) (cl :: k2))
            (hP2 a2 (List.mem_cons_self a2 l2'))
          cases l2' with
          | nil =>
              simp only [commaSepC] at h
              rw [he] at h
              exact absurd (List.cons.inj h).1.symm hc
          | cons b2 r2 =>
              simp only [commaSepC] at h
              rw [he] at h
              exact absurd (List.cons.inj h).1.symm hc
  | cons a1 l1' ih =>
      intro l2 k1 k2 hP1 hP2 h
      cases l2 with
      | nil =>
          obtain ⟨c, tl, he, hc, _⟩ := hhead a1
            (match l1' with
             | [] => cl :: k1
             | b :: r => ',' :: commaSepC f (b :: r) (cl :: k1))
            (hP1 a1 (List.mem_cons_self a1 l1'))
          cases l1' with
          | nil =>
              simp only [commaSepC] at h
              rw [he] at h
              exact absurd (List.cons.inj h).1 hc
          | cons b1 r1 =>
              simp only [commaSepC] at h
              rw [he] at h
              exact absurd (List.cons.inj h).1 hc
      | cons a2 l2' =>
          cases l1' with
          | nil =>
              cases l2' with
              | nil =>
                  simp only [commaSepC] at h
                  obtain ⟨ha, hk⟩ := hdet a1 a2 _ _
                    (hP1 a1 (List.mem_cons_self a1 []))
                    (hP2 a2 (List.mem_cons_self a2 [])) h
                  exact ⟨by rw [ha], (List.cons.inj hk).2⟩
              | cons b2 r2 =>
                  simp only [commaSepC] at h
                  obtain ⟨ha, hk⟩ := hdet a1 a2 _ _
                    (hP1 a1 (List.mem_cons_self a1 []))
                    (hP2 a2 (List.mem_cons_self a2 (b2 :: r2))) h
                  exact absurd (List.cons.inj hk).1 hcl
          | cons b1 r1 =>
              cases l2' with
              | nil =>
                  simp only [commaSepC] at h
                  obtain ⟨ha, hk⟩ := hdet a1 a2 _ _
                    (hP1 a1 (List.mem_cons_self a1 (b1 :: r1)))
                    (hP2 a2 (List.mem_cons_self a2 [])) h
                  exact absurd (List.cons.inj hk).1.symm hcl
              | cons b2 r2 =>
                  simp only [commaSepC] at h
                  obtain ⟨ha, hk⟩ := hdet a1 a2 _ _
                    (hP1 a1 (List.mem_cons_self a1 (b1 :: r1)))
                    (hP2 a2 (List.mem_cons_self a2 (b2 :: r2))) h
                  obtain ⟨hl, hk2⟩ := ih (b2 :: r2) k1 k2
                    (fun a hm => hP1 a (List.mem_cons_of_mem a1 hm))
                    (fun a hm => hP2 a (List.mem_cons_of_mem a2 hm))
                    (List.cons.inj hk).2
                  exact ⟨by rw [ha, hl], hk2⟩

/-- Object entries (`"key":"value"`) are determined with continuations. -/
theorem jpairC_det {p1 p2 : String × String} {k1 k2 : List Char}
    (h : jpairC p1 k1 = jpairC p2 k2) : p1 = p2 ∧ k1 = k2 := by
  unfold jpairC at h
  obtain ⟨h1, h⟩ := jstrC_det h
  obtain ⟨h2, hk⟩ := jstrC_det (List.cons.inj h).2
  exact ⟨Prod.ext h1 h2, hk⟩

/-- The `operation_log` entries are determined with continuations. -/
theorem serLogEntryC_det {e1 e2 : CertLogEntry} {k1 k2 : List Char}
    (h1 : numOk e1.timestamp) (h2 : numOk e2.timestamp)
    (h : serLogEntryC e1 k1 = serLogEntryC e2 k2) : e1 = e2 ∧ k1 = k2 := by
  unfold serLogEntryC at h
  have h := chunkC_inj h
  obtain ⟨hehash, h⟩ := jstrC_det h
  have h := chunkC_inj h
  obtain ⟨heid, h⟩ := jstrC_det h
  have h := chunkC_inj h
  obtain ⟨hlvl, h⟩ := jstrC_det h
  have h := chunkC_inj h
  obtain ⟨hmsg, h⟩ := jstrC_det h
  have h := chunkC_inj h
  obtain ⟨hts, hk⟩ := jnumC_det h1 h2 (Or.inr rfl) h
  refine ⟨?_, hk⟩
  cases e1
  cases e2
  simp_all

/-- String arrays are determined with continuations. -/
theorem jarrStr_det {l1 l2 : List String} {k1 k2 : List Char}
    (h : jarrC jstrC l1 k1 = jarrC jstrC l2 k2) : l1 = l2 ∧ k1 = k2 := by
  unfold jarrC at h
  refine commaSepC_det jstrC (fun _ => True) ']' (by decide)
    (fun a1 a2 t1 t2 _ _ hh => jstrC_det hh)
    (fun a t _ => ⟨'"', _, rfl, by decide, by decide⟩)
    l1 l2 k1 k2 (fun _ _ => trivial) (fun _ _ => trivial) (List.cons.inj h).2

/-- String-to-string objects are determined with continuations. -/
theorem jobjC_det {l1 l2 : List (String × String)} {k1 k2 : List Char}
    (h : jobjC l1 k1 = jobjC l2 k2) : l1 = l2 ∧ k1 = k2 := by
  unfold jobjC at h
  refine commaSepC_det jpairC (fun _ => True) '\x7d' (by decide)
    (fun a1 a2 t1 t2 _ _ hh => jpairC_det hh)
    (fun a t _ => ⟨'"', _, rfl, by decide, by decide⟩)
    l1 l2 k1 k2 (fun _ _ => trivial) (fun _ _ => trivial) (List.cons.inj h).2

/-- Log-entry arrays are determined with continuations. -/
theorem jarrLog_det {l1 l2 : List CertLogEntry} {k1 k2 : List Char}
    (hn1 : ∀ e ∈ l1, numOk e.timestamp) (hn2 : ∀ e ∈ l2, numOk e.timestamp)
    (h : jarrC serLogEntryC l1 k1 = jarrC serLogEntryC l2 k2) :
    l1 = l2 ∧ k1 = k2 := by
  unfold jarrC at h
  refine commaSepC_det serLogEntryC (fun e => numOk e.timestamp) ']' (by decide)
    (fun a1 a2 t1 t2 p1 p2 hh => serLogEntryC_det p1 p2 hh)
    (fun a t _ => ⟨'\x7b', _, rfl, by decide, by decide⟩)
    l1 l2 k1 k2 hn1 hn2 (List.cons.inj h).2

/-- The `device_info` objects are determined with continuations. -/
theorem serDeviceInfoC_det {d1 d2 : CertDeviceInfo} {k1 k2 : List Char}
    (h1 : numOk d1.size_gb) (h2 : numOk d2.size_gb)
    (h : serDeviceInfoC d1 k1 = serDeviceInfoC d2 k2) : d1 = d2 ∧ k1 = k2 := by
  unfold serDeviceInfoC at h
  have h := chunkC_inj h
  obtain ⟨hdph, h⟩ := jstrC_det h
  have h := chunkC_inj h
  obtain ⟨hdt, h⟩ := jstrC_det h
  have h := chunkC_inj h
  obtain ⟨henc, h⟩ := jstrC_det h
  have h := chunkC_inj h
  obtain ⟨hhpa, h⟩ := jboolC_det h
  have h := chunkC_inj h
  obtain ⟨hintf, h⟩ := jstrC_det h
  have h := chunkC_inj h
  obtain ⟨hmodel, h⟩ := jstrC_det h
  have h := chunkC_inj h
  obtain ⟨hsec, h⟩ := jboolC_det h
  have h := chunkC_inj h
  obtain ⟨hser, h⟩ := jstrC_det h
  have h := chunkC_inj h
  obtain ⟨hsize, hk⟩ := jnumC_det h1 h2 (Or.inr rfl) h
  refine ⟨?_, hk⟩
  cases d1
  cases d2
  simp_all

/-- The `wipe_operation` objects are determined with continuations. -/
theorem serWipeOpC_det {w1 w2 : CertWipeOp} {k1 k2 : List Char}
    (h1 : wipeOpNumOk w1) (h2 : wipeOpNumOk w2)
    (h : serWipeOpC w1 k1 = serWipeOpC w2 k2) : w1 = w2 ∧ k1 = k2 := by
  unfold serWipeOpC at h
  have h := chunkC_inj h
  obtain ⟨hdur, h⟩ := joptNumC_det h1.1 h2.1 (Or.inl rfl) h
  have h := chunkC_inj h
  obtain ⟨hend, h⟩ := joptNumC_det h1.2.1 h2.2.1 (Or.inl rfl) h
  have h := chunkC_inj h
  obtain ⟨herr, h⟩ := joptStrC_det h
  have h := chunkC_inj h
  obtain ⟨hm, h⟩ := jstrC_det h
  have h := chunkC_inj h
  obtain ⟨hprog, h⟩ := jnumC_det h1.2.2.1 h2.2.2.1 (Or.inl rfl) h
  have h := chunkC_inj h
  obtain ⟨hstart, h⟩ := joptNumC_det h1.2.2.2 h2.2.2.2 (Or.inl rfl) h
  have h := chunkC_inj h
  obtain ⟨hst, hk⟩ := jstrC_det h
  refine ⟨?_, (List.cons.inj hk).2⟩
  cases w1
  cases w2
  simp_all

/-- The `tool_info` objects are determined with continuations. -/
theorem serToolInfoC_det {t1 t2 : ToolInfo} {k1 k2 : List Char}
    (h : serToolInfoC t1 k1 = serToolInfoC t2 k2) : t1 = t2 ∧ k1 = k2 := by
  unfold serToolInfoC at h
  have h := chunkC_inj h
  obtain ⟨hb, h⟩ := jstrC_det h
  have h := chunkC_inj h
  obtain ⟨hn, h⟩ := jstrC_det h
  have h := chunkC_inj h
  obtain ⟨hf, h⟩ := jstrC_det h
  have h := chunkC_inj h
  obtain ⟨hv, hk⟩ := jstrC_det h
  refine ⟨?_, (List.cons.inj hk).2⟩
  cases t1
  cases t2
  simp_all

/-- The `compliance_info` objects are determined with continuations. -/
theorem serComplianceC_det {c1 c2 : ComplianceInfo} {k1 k2 : List Char}
    (h : serComplianceC c1 k1 = serComplianceC c2 k2) : c1 = c2 ∧ k1 = k2 := by
  unfold serComplianceC at h
  have h := chunkC_inj h
  obtain ⟨hmc, h⟩ := jstrC_det h
  have h := chunkC_inj h
  obtain ⟨hstd, h⟩ := jarrStr_det h
  have h := chunkC_inj h
  obtain ⟨hvl, hk⟩ := jstrC_det h
  refine ⟨?_, (List.cons.inj hk).2⟩
  cases c1
  cases c2
  simp_all

/-- Injectivity of the canonical form: for well-formed numeric fields,
equal canonical byte strings force equal certificates up to the
`signature` and `blockchain_anchor` slots. -/
theorem canonicalSansSigC_det {c1 c2 : CertificateData} {k1 k2 : List Char}
    (h1 : certNumOk c1) (h2 : certNumOk c2)
    (h : canonicalSansSigC c1 k1 = canonicalSansSigC c2 k2) :
    stripSig c1 = stripSig c2 ∧ k1 = k2 := by
  unfold canonicalSansSigC at h
  have h := chunkC_inj h
  obtain ⟨hcid, h⟩ := jstrC_det h
  have h := chunkC_inj h
  obtain ⟨hci, h⟩ := serComplianceC_det h
  have h := chunkC_inj h
  obtain ⟨hdev, h⟩ := serDeviceInfoC_det h1.1 h2.1 h
  have h := chunkC_inj h
  obtain ⟨hlog, h⟩ := jarrLog_det h1.2.2 h2.2.2 h
  have h := chunkC_inj h
  obtain ⟨hts, h⟩ := jstrC_det h
  have h := chunkC_inj h
  obtain ⟨hti, h⟩ := serToolInfoC_det h
  have h := chunkC_inj h
  obtain ⟨hvh, h⟩ := jobjC_det h
  have h := chunkC_inj h
  obtain ⟨hwo, h⟩ := serWipeOpC_det h1.2.1 h2.2.1 h
  refine ⟨?_, (List.cons.inj h).2⟩
  unfold stripSig
  cases c1
  cases c2
  simp_all

/-- Injectivity of `canonicalSansSig` itself. -/
theorem canonicalSansSig_inj {c1 c2 : CertificateData}
    (h1 : certNumOk c1) (h2 : certNumOk c2)
    (h : canonicalSansSig c1 = canonicalSansSig c2) : stripSig c1 = stripSig c2 :=
  (canonicalSansSigC_det h1 h2 h).1

/-! ## Claim theorems -/
/-- C3, counterexample.  The claim says the method selector follows the
spec's rule ladder for every `DeviceFacts`.  With the model path live
(`method_selector` non-`None`, `predict` returning the in-range class 6,
as the untrained RandomForest may), `select_optimal_wipe_method` returns
`factory_reset` on a USB device, while the ladder requires
`single_pass_random`. -/
theorem c3_selector_ladder_counterexample :
    selectOptimalWipeMethod psPredictSix sampleUsbDevice = WipeMethod.factory_reset ∧
    specSelectorLadder sampleUsbDevice = WipeMethod.single_pass_random ∧
    selectOptimalWipeMethod psPredictSix sampleUsbDevice ≠
      specSelectorLadder sampleUsbDevice := by
  refine ⟨by decide, by decide, by decide⟩

/-- C3, amended.  The rule-based selector implements exactly the spec's
ladder, and `select_optimal_wipe_method` returns the ladder's strategy
whenever the AI path yields nothing: no model, a `predict` exception, or
an out-of-range prediction. -/
theorem c3_selector_rule_ladder :
    (∀ d : DeviceInfo, ruleBasedMethodSelection d = specSelectorLadder d) ∧
    (∀ (ps : ProcessState) (d : DeviceInfo), modelPrediction ps d = none →
      selectOptimalWipeMethod ps d = specSelectorLadder d) ∧
    (∀ (ps : ProcessState) (d : DeviceInfo) (p : Int),
      modelPrediction ps d = some p → ¬(0 ≤ p ∧ p < 7) →
      selectOptimalWipeMethod ps d = specSelectorLadder d) := by
  have hladder : ∀ d : DeviceInfo, ruleBasedMethodSelection d = specSelectorLadder d := by
    intro d
    unfold ruleBasedMethodSelection specSelectorLadder
    rcases d with ⟨path, dt, model, serial, size, intf, enc, hpa, sec⟩
    by_cases henc : enc = "LUKS" ∨ enc = "BitLocker"
    · simp [henc]
    · simp only [henc, if_false]
      cases dt <;> simp
  refine ⟨hladder, ?_, ?_⟩
  · intro ps d h
    unfold selectOptimalWipeMethod
    rw [h]
    exact hladder d
  · intro ps d p h hout
    unfold selectOptimalWipeMethod
    rw [h]
    simp only [hout, if_false]
    exact hladder d

/-- C3, witness.  The amended theorem applied at a dead model path on
the concrete USB device. -/
theorem c3_selector_rule_ladder_witness :
    selectOptimalWipeMethod psNoModel sampleUsbDevice =
      specSelectorLadder sampleUsbDevice :=
  c3_selector_rule_ladder.2.1 psNoModel sampleUsbDevice rfl

/-- C9, counterexample.  The claim says selection is independent of
process-level randomness (model training noise, string-hash salting).
Two process states — one with no model, one whose model predicts class 6 —
give different strategies on the same facts. -/
theorem c9_determinism_counterexample :
    selectOptimalWipeMethod psNoModel sampleUsbDevice = WipeMethod.single_pass_random ∧
    selectOptimalWipeMethod psPredictSix sampleUsbDevice = WipeMethod.factory_reset ∧
    selectOptimalWipeMethod psNoModel sampleUsbDevice ≠
      selectOptimalWipeMethod psPredictSix sampleUsbDevice := by
  refine ⟨by decide, by decide, by decide⟩

/-- C9, amended.  Within one process state the selector is a pure
function of its input — two invocations on the same facts agree — and the
result depends on the process state only through the model's prediction
on the facts' feature vector. -/
theorem c9_selector_determinism :
    (∀ (ps : ProcessState) (d : DeviceInfo),
      selectOptimalWipeMethod ps d = selectOptimalWipeMethod ps d) ∧
    (∀ (ps1 ps2 : ProcessState) (d : DeviceInfo),
      modelPrediction ps1 d = modelPrediction ps2 d →
      selectOptimalWipeMethod ps1 d = selectOptimalWipeMethod ps2 d) := by
  refine ⟨fun ps d => rfl, ?_⟩
  intro ps1 ps2 d h
  unfold selectOptimalWipeMethod
  rw [h]

/-- C9, witness.  The amended theorem applied at two concrete process
states with equal predictions. -/
theorem c9_selector_determinism_witness :
    selectOptimalWipeMethod psNoModel sampleUsbDevice =
      selectOptimalWipeMethod
        { strHash := fun _ => 1, hasModel := false, predict := fun _ => none }
        sampleUsbDevice :=
  c9_selector_determinism.2 psNoModel
    { strHash := fun _ => 1, hasModel := false, predict := fun _ => none }
    sampleUsbDevice rfl

/-- Helper: the resolution of a message matching `"not supported"` and no
earlier diagnosis pattern. -/
theorem diagnose_not_supported {e : String}
    (h1 : containsPat (lowerData e) "permission denied" = false)
    (h2 : containsPat (lowerData e) "device busy" = false)
    (h3 : containsPat (lowerData e) "resource busy" = false)
    (h4 : containsPat (lowerData e) "not supported" = true) :
    diagnoseAndResolveErrors e =
      { diagnosis := "Operation not supported by device",
        suggested_actions := ["Try alternative wipe method"],
        alternative_method := some WipeMethod.single_pass_random,
        confidence := 8/10 } := by
  unfold diagnoseAndResolveErrors
  simp [h1, h2, h3, h4]

/-- Helper: any message whose first matching pattern is not
`"not supported"` resolves without an alternative method. -/
theorem diagnose_alt_none_of_not_supported_false {e : String}
    (h4 : containsPat (lowerData e) "not supported" = false) :
    (diagnoseAndResolveErrors e).alternative_method = none := by
  unfold diagnoseAndResolveErrors
  split_ifs with a b c d <;> simp_all

/-- Helper: a message matching one of the two earliest diagnosis patterns
resolves without an alternative method. -/
theorem diagnose_alt_none_of_early_pattern {e : String}
    (h : containsPat (lowerData e) "permission denied" = true ∨
      (containsPat (lowerData e) "device busy" = true ∨
        containsPat (lowerData e) "resource busy" = true)) :
    (diagnoseAndResolveErrors e).alternative_method = none := by
  unfold diagnoseAndResolveErrors
  rcases h with h1 | h2 | h3
  · simp [h1]
  · by_cases h1 : containsPat (lowerData e) "permission denied" = true
    · simp [h1]
    · simp [h1, h2]
  · by_cases h1 : containsPat (lowerData e) "permission denied" = true
    · simp [h1]
    · simp [h1, h3]

/-- Helper: `execute_wipe` after an escaping `"not supported"` exception:
substitute `single_pass_random`, log it, return the retry result, leave
the status `failed`. -/
theorem execRaised_notSupported (env : ExecEnv) (op : WipeOperation) (e : String)
    (hr : env.raised = some e)
    (h1 : containsPat (lowerData e) "permission denied" = false)
    (h2 : containsPat (lowerData e) "device busy" = false)
    (h3 : containsPat (lowerData e) "resource busy" = false)
    (h4 : containsPat (lowerData e) "not supported" = true) :
    (executeWipe env op).1.method = WipeMethod.single_pass_random ∧
    (executeWipe env op).1.status = WipeStatus.failed ∧
    (executeWipe env op).1.error_message = some e ∧
    "Trying alternative method: single_pass_random" ∈
      (executeWipe env op).1.operation_log ∧
    (executeWipe env op).2 = env.methodOk WipeMethod.single_pass_random := by
  unfold executeWipe
  rw [hr]
  dsimp only
  rw [diagnose_not_supported h1 h2 h3 h4]
  dsimp only
  rw [if_pos (by norm_num : (8 : ℚ)/10 > 7/10)]
  refine ⟨rfl, rfl, rfl, ?_, rfl⟩
  simp [wipeMethodValue]

/-- Helper: `execute_wipe` after an escaping exception whose resolution
has no alternative method: terminal failure, error populated, method
unchanged, `False` returned. -/
theorem execRaised_noAlternative (env : ExecEnv) (op : WipeOperation) (e : String)
    (hr : env.raised = some e)
    (halt : (diagnoseAndResolveErrors e).alternative_method = none) :
    (executeWipe env op).1.status = WipeStatus.failed ∧
    (executeWipe env op).1.method = op.method ∧
    (executeWipe env op).1.error_message = some e ∧
    (executeWipe env op).2 = false := by
  unfold executeWipe
  rw [hr]
  dsimp only
  simp only [halt]
  exact ⟨trivial, trivial, trivial, trivial⟩

/-- C4, counterexample.  The claim says that after a recoverable
Phase-P2 failure the Executor re-enters P2 with the fallback strategy and,
if that strategy and P3 verification succeed, the operation ends
`completed`.  In the code the retry result is returned, but no
verification is re-run and the status set before the retry is never
updated: with the substituted strategy and the verification oracle both
succeeding, the operation still ends `failed`, not `completed`. -/
theorem c4_fallback_counterexample :
    (executeWipe envUnsupported sampleOp).2 = true ∧
    (executeWipe envUnsupported sampleOp).1.method = WipeMethod.single_pass_random ∧
    (executeWipe envUnsupported sampleOp).1.status = WipeStatus.failed ∧
    (executeWipe envUnsupported sampleOp).1.status ≠ WipeStatus.completed := by
  obtain ⟨hm, hs, he, hl, hret⟩ := execRaised_notSupported envUnsupported sampleOp
    ("Operation not supported by device") rfl (by decide) (by decide) (by decide)
    (by decide)
  refine ⟨?_, hm, hs, ?_⟩
  · rw [hret]
    rfl
  · rw [hs]
    decide

/-- C4, amended.  When an exception whose message matches
`"not supported"` (and none of the earlier diagnosis patterns) escapes the
execution phase, `execute_wipe` substitutes `single_pass_random`, logs the
substitution, re-executes the wipe method once and returns that retry's
result — but it does not re-run post-wipe verification and the operation's
state remains `failed` even when the retry succeeds.  When Phase P2 merely
reports failure (returns false) no fallback is attempted at all. -/
theorem c4_fallback_behaviour :
    (∀ (env : ExecEnv) (op : WipeOperation) (e : String),
      env.raised = some e →
      containsPat (lowerData e) "permission denied" = false →
      containsPat (lowerData e) "device busy" = false →
      containsPat (lowerData e) "resource busy" = false →
      containsPat (lowerData e) "not supported" = true →
      (executeWipe env op).1.method = WipeMethod.single_pass_random ∧
      (executeWipe env op).1.status = WipeStatus.failed ∧
      (executeWipe env op).1.error_message = some e ∧
      "Trying alternative method: single_pass_random" ∈
        (executeWipe env op).1.operation_log ∧
      (executeWipe env op).2 = env.methodOk WipeMethod.single_pass_random) ∧
    (∀ (env : ExecEnv) (op : WipeOperation),
      env.raised = none → env.preChecksOk = true →
      env.methodOk op.method = false →
      (executeWipe env op).1.status = WipeStatus.failed ∧
      (executeWipe env op).1.method = op.method ∧
      (executeWipe env op).2 = false) := by
  constructor
  · intro env op e hr h1 h2 h3 h4
    exact execRaised_notSupported env op e hr h1 h2 h3 h4
  · intro env op hr hpre hm
    unfold executeWipe
    rw [hr]
    simp [hpre, hm]

/-- C4, witness.  The amended theorem applied at the concrete
unsupported-error run. -/
theorem c4_fallback_behaviour_witness :
    (executeWipe envUnsupported sampleOp).1.method = WipeMethod.single_pass_random ∧
    (executeWipe envUnsupported sampleOp).1.status = WipeStatus.failed ∧
    (executeWipe envUnsupported sampleOp).1.error_message =
      some ("Operation not supported by device") ∧
    "Trying alternative method: single_pass_random" ∈
      (executeWipe envUnsupported sampleOp).1.operation_log ∧
    (executeWipe envUnsupported sampleOp).2 =
      envUnsupported.methodOk WipeMethod.single_pass_random :=
  c4_fallback_behaviour.1 envUnsupported sampleOp
    ("Operation not supported by device") rfl (by decide) (by decide) (by decide)
    (by decide)

/-- C6, counterexample.  The claim says a timeout error triggers
exactly one fallback (degrading a multipass to a single pass) before
becoming fatal.  In the code the timeout resolution carries no alternative
method and confidence 0.7, which fails the strict `> 0.7` gate: no
fallback happens, the method is unchanged and the run simply fails. -/
theorem c6_timeout_counterexample :
    (diagnoseAndResolveErrors ("Operation timeout after 300 seconds")).alternative_method
        = none ∧
    (executeWipe envTimeout sampleOp).1.method = WipeMethod.multipass_overwrite ∧
    (executeWipe envTimeout sampleOp).1.status = WipeStatus.failed ∧
    (executeWipe envTimeout sampleOp).2 = false := by
  have halt : (diagnoseAndResolveErrors
      ("Operation timeout after 300 seconds")).alternative_method = none :=
    diagnose_alt_none_of_not_supported_false (by decide)
  obtain ⟨hs, hm, he, hret⟩ := execRaised_noAlternative envTimeout sampleOp
    ("Operation timeout after 300 seconds") rfl halt
  exact ⟨halt, hm, hs, hret⟩

/-- C6, amended.  An `unsupported`-style error (message matching
`"not supported"`) triggers the single fallback to `single_pass_random`;
a timeout error triggers no fallback at all (its resolution has no
alternative method and confidence 0.7, failing the strict `> 0.7` gate)
and is terminal with the error field populated; the other recognized
kinds (permission denied, device/resource busy) are likewise terminal
with the error field populated and no method change. -/
theorem c6_error_taxonomy :
    (∀ (env : ExecEnv) (op : WipeOperation) (e : String),
      env.raised = some e →
      containsPat (lowerData e) "permission denied" = false →
      containsPat (lowerData e) "device busy" = false →
      containsPat (lowerData e) "resource busy" = false →
      containsPat (lowerData e) "not supported" = true →
      (executeWipe env op).1.method = WipeMethod.single_pass_random ∧
      (executeWipe env op).1.error_message = some e) ∧
    (∀ (env : ExecEnv) (op : WipeOperation) (e : String),
      env.raised = some e →
      containsPat (lowerData e) "not supported" = false →
      containsPat (lowerData e) "timeout" = true →
      (executeWipe env op).1.status = WipeStatus.failed ∧
      (executeWipe env op).1.method = op.method ∧
      (executeWipe env op).1.error_message = some e ∧
      (executeWipe env op).2 = false) ∧
    (∀ (env : ExecEnv) (op : WipeOperation) (e : String),
      env.raised = some e →
      (containsPat (lowerData e) "permission denied" = true ∨
        (containsPat (lowerData e) "device busy" = true ∨
          containsPat (lowerData e) "resource busy" = true)) →
      (executeWipe env op).1.status = WipeStatus.failed ∧
      (executeWipe env op).1.method = op.method ∧
      (executeWipe env op).1.error_message = some e ∧
      (executeWipe env op).2 = false) := by
  refine ⟨?_, ?_, ?_⟩
  · intro env op e hr h1 h2 h3 h4
    obtain ⟨hm, _, he, _, _⟩ := execRaised_notSupported env op e hr h1 h2 h3 h4
    exact ⟨hm, he⟩
  · intro env op e hr h4 _
    exact execRaised_noAlternative env op e hr
      (diagnose_alt_none_of_not_supported_false h4)
  · intro env op e hr hcase
    exact execRaised_noAlternative env op e hr
      (diagnose_alt_none_of_early_pattern hcase)

/-- C6, witness.  The amended theorem's timeout clause at the concrete
timeout run. -/
theorem c6_error_taxonomy_witness :
    (executeWipe envTimeout sampleOp).1.status = WipeStatus.failed ∧
    (executeWipe envTimeout sampleOp).1.method = sampleOp.method ∧
    (executeWipe envTimeout sampleOp).1.error_message =
      some ("Operation timeout after 300 seconds") ∧
    (executeWipe envTimeout sampleOp).2 = false :=
  c6_error_taxonomy.2.1 envTimeout sampleOp ("Operation timeout after 300 seconds")
    rfl (by decide) (by decide)

/-- Helper: every `_verify_sector_wiped` call returns `False`: its sector
argument is a float, so the seek raises `TypeError` before anything is
read. -/
theorem verifySectorWiped_false (readAt : ℤ → Option (List ℕ)) (sector : ℚ) :
    verifySectorWiped readAt sector = false := rfl

/-- Helper: post-wipe verification reports passed iff no sector is
sampled. -/
theorem postWipeVerification_true_iff (readAt : ℤ → Option (List ℕ))
    (d : DeviceInfo) :
    postWipeVerification readAt d = true ↔ postWipeSampleCount d = 0 := by
  unfold postWipeVerification
  constructor
  · intro h
    by_contra hne
    have hpos : 0 < postWipeSampleCount d := Nat.pos_of_ne_zero hne
    have h0 := List.all_eq_true.mp h 0 (List.mem_range.mpr hpos)
    rw [verifySectorWiped_false] at h0
    exact absurd h0 (by decide)
  · intro h
    rw [h]
    rfl

/-- Claim C7, code bug: Phase P3 computes `min(100, int(capacity_gb))`
sample indices, but every sampled sector offset is a Python float (float
floor-division of the float `size_gb`; already `0.0` at index 0), `f.seek`
raises `TypeError` on every float offset and the bare `except` converts
this into `False`.  The fewer-than-3-distinct-bytes pass criterion is
therefore unreachable dead code, every sampled sector check fails, and
verification passes iff no sector is sampled — contrary to the claim's
pass-iff criterion: on the 8 GB sample device whose every sector reads as
512 zero bytes (content the criterion would accept), verification still
reports failure. -/
theorem c7_verification_criterion_dead :
    (∀ d : DeviceInfo, postWipeSampleCount d = min 100 (Int.toNat ⌊d.size_gb⌋)) ∧
    (∀ (readAt : ℤ → Option (List ℕ)) (sector : ℚ),
      verifySectorWiped readAt sector = false) ∧
    (∀ (readAt : ℤ → Option (List ℕ)) (d : DeviceInfo),
      postWipeVerification readAt d = true ↔ postWipeSampleCount d = 0) ∧
    (readAllZeros 0 = some (List.replicate 512 0) ∧
      (List.replicate 512 (0 : ℕ)).dedup.length < 3 ∧
      postWipeVerification readAllZeros sampleUsbDevice = false) := by
  refine ⟨fun d => rfl, verifySectorWiped_false, postWipeVerification_true_iff,
    rfl, ?_, ?_⟩
  · rw [List.replicate_dedup (by norm_num)]
    norm_num
  · have hc : postWipeSampleCount sampleUsbDevice = 8 := by
      norm_num [postWipeSampleCount, sampleUsbDevice]
      rfl
    rw [← Bool.not_eq_true, postWipeVerification_true_iff, hc]
    norm_num

/-- C10.  With capacity below 1 GB the sample count is
`min(100, int(size_gb)) = 0`, the verification loop checks no sectors and
returns passed, and an otherwise-successful run reaches `completed`
without any sector being inspected. -/
theorem c10_small_capacity_completes :
    ∀ (readSector : ℤ → Option (List ℕ)) (d : DeviceInfo) (env : ExecEnv)
      (op : WipeOperation),
      d.size_gb < 1 →
      postWipeSampleCount d = 0 ∧
      postWipeVerification readSector d = true ∧
      (env.raised = none → env.preChecksOk = true → env.methodOk op.method = true →
        env.verifyOk = postWipeVerification readSector d →
        (executeWipe env op).1.status = WipeStatus.completed ∧
        (executeWipe env op).2 = true) := by
  intro readSector d env op hlt
  have hc : postWipeSampleCount d = 0 := by
    unfold postWipeSampleCount
    have h1 : ⌊d.size_gb⌋ < 1 := Int.floor_lt.mpr (by exact_mod_cast hlt)
    omega
  have hv : postWipeVerification readSector d = true := by
    unfold postWipeVerification
    rw [hc]
    rfl
  refine ⟨hc, hv, ?_⟩
  intro hr hpre hm hveq
  have hv' : env.verifyOk = true := by rw [hveq, hv]
  unfold executeWipe
  rw [hr]
  dsimp only
  simp [hpre, hm, hv']

/-- C10, witness.  The theorem applied to a zero-capacity device and a
read oracle on which every sector would fail: the run still completes. -/
theorem c10_small_capacity_completes_witness :
    postWipeSampleCount tinyDevice = 0 ∧
    postWipeVerification readAllDirty tinyDevice = true ∧
    ((executeWipe
        { now := 0, endNow := 1, preChecksOk := true, preError := none,
          methodOk := fun _ => true,
          verifyOk := postWipeVerification readAllDirty tinyDevice,
          raised := none } sampleOp).1.status = WipeStatus.completed ∧
      (executeWipe
        { now := 0, endNow := 1, preChecksOk := true, preError := none,
          methodOk := fun _ => true,
          verifyOk := postWipeVerification readAllDirty tinyDevice,
          raised := none } sampleOp).2 = true) := by
  have h := c10_small_capacity_completes readAllDirty tinyDevice
    { now := 0, endNow := 1, preChecksOk := true, preError := none,
      methodOk := fun _ => true,
      verifyOk := postWipeVerification readAllDirty tinyDevice,
      raised := none } sampleOp (by decide)
  exact ⟨h.1, h.2.1, h.2.2 rfl rfl rfl rfl⟩

/-- Helper: the three checks a leading entry must pass. -/
theorem verifyFrom_cons_true {H : String → String} {exp : String} {e : LogEntry}
    {rest : List LogEntry} (h : verifyFrom H exp (e :: rest) = true) :
    e.previous_hash = exp ∧ e.entry_hash = calcEntryHash H e ∧
      verifyFrom H e.entry_hash rest = true := by
  unfold verifyFrom at h
  split_ifs at h with h1 h2
  exact ⟨not_not.mp h1, not_not.mp h2, h⟩

/-- Helper: validity of a chain extended by one correctly linked entry. -/
theorem verifyFrom_snoc (H : String → String) (e : LogEntry) :
    ∀ (chain : List LogEntry) (exp : String),
      verifyFrom H exp chain = true →
      e.previous_hash = chainTip exp chain →
      e.entry_hash = calcEntryHash H e →
      verifyFrom H exp (chain ++ [e]) = true := by
  intro chain
  induction chain with
  | nil =>
      intro exp _ hprev hhash
      unfold chainTip at hprev
      simp only [List.nil_append]
      unfold verifyFrom
      rw [if_neg (by simp [hprev]), if_neg (by simp [hhash])]
      rfl
  | cons e0 rest ih =>
      intro exp h hprev hhash
      obtain ⟨h1, h2, h3⟩ := verifyFrom_cons_true h
      have htip : chainTip exp (e0 :: rest) = chainTip e0.entry_hash rest := by
        unfold chainTip
        cases rest with
        | nil => rfl
        | cons a l =>
            cases hg : (a :: l).getLast? with
            | none => exact absurd hg (by simp)
            | some x => simp [List.getLast?_cons_cons, hg]
      simp only [List.cons_append]
      unfold verifyFrom
      rw [if_neg (by simp [h1]), if_neg (by simp [h2])]
      exact ih e0.entry_hash h3 (by rw [hprev, htip]) hhash

/-- Helper: `add_entry` preserves chain validity. -/
theorem verifyChain_addEntry (H : String → String) (chain : List LogEntry)
    (ts id msg lvl : String) (h : verifyChain H chain = true) :
    verifyChain H (addEntry H chain ts id msg lvl) = true := by
  unfold verifyChain at *
  unfold addEntry
  exact verifyFrom_snoc H _ chain genesisHash h rfl rfl

/-- Helper: any sequence of `add_entry` calls preserves chain validity. -/
theorem verifyChain_addEntries (H : String → String) :
    ∀ (reqs : List AppendReq) (chain : List LogEntry),
      verifyChain H chain = true → verifyChain H (addEntries H chain reqs) = true := by
  intro reqs
  induction reqs with
  | nil => intro chain h; exact h
  | cons r rest ih =>
      intro chain h
      exact ih (addEntry H chain r.ts r.id r.msg r.lvl)
        (verifyChain_addEntry H chain r.ts r.id r.msg r.lvl h)

/-- Helper: the hash input of a mutated entry differs from the original's
(string-append cancellation, field by field). -/
theorem mutated_concat_ne {e e' : LogEntry} (hm : mutatedEntry e e') :
    e'.timestamp ++ e'.entry_id ++ e'.message ++ e'.level ++ e'.previous_hash ≠
      e.timestamp ++ e.entry_id ++ e.message ++ e.level ++ e.previous_hash := by
  intro h
  have hdata := congrArg String.data h
  simp only [String.data_append, List.append_assoc] at hdata
  obtain ⟨-, hid, hcase⟩ := hm
  rcases hcase with ⟨hne, h2, h3, h4⟩ | ⟨hne, h2, h3, h4⟩ | ⟨hne, h2, h3, h4⟩ |
    ⟨hne, h2, h3, h4⟩
  · rw [h2, hid, h3, h4] at hdata
    have := List.append_cancel_left (List.append_cancel_left hdata)
    exact hne (String.ext (List.append_cancel_right this))
  · rw [hid, h2, h3, h4] at hdata
    exact hne (String.ext (List.append_cancel_right hdata))
  · rw [h2, hid, h3, h4] at hdata
    have := List.append_cancel_left (List.append_cancel_left
      (List.append_cancel_left hdata))
    exact hne (String.ext (List.append_cancel_right this))
  · rw [h2, hid, h3, h4] at hdata
    have := List.append_cancel_left (List.append_cancel_left
      (List.append_cancel_left (List.append_cancel_left hdata)))
    exact hne (String.ext this)

/-- Helper: mutating one signed field of any entry of a valid chain makes
the walk fail. -/
theorem verifyFrom_set_mutated (H : String → String)
    (Hinj : Function.Injective H) :
    ∀ (chain : List LogEntry) (i : ℕ) (exp : String) (e' : LogEntry)
      (hi : i < chain.length),
      verifyFrom H exp chain = true →
      mutatedEntry (chain.get ⟨i, hi⟩) e' →
      verifyFrom H exp (chain.set i e') = false := by
  intro chain
  induction chain with
  | nil =>
      intro i exp e' hi
      exact absurd hi (by simp)
  | cons e rest ih =>
      intro i exp e' hi h hm
      obtain ⟨h1, h2, h3⟩ := verifyFrom_cons_true h
      cases i with
      | zero =>
          have hget : (e :: rest).get ⟨0, hi⟩ = e := rfl
          rw [hget] at hm
          show verifyFrom H exp (e' :: rest) = false
          obtain ⟨hhash, hid, hcase⟩ := hm
          have hprev_or : e'.previous_hash ≠ e.previous_hash ∨
              (e'.previous_hash = e.previous_hash ∧
                e'.timestamp ++ e'.entry_id ++ e'.message ++ e'.level ++
                    e'.previous_hash ≠
                  e.timestamp ++ e.entry_id ++ e.message ++ e.level ++
                    e.previous_hash) := by
            rcases hcase with ⟨hne, hrest⟩ | ⟨hne, hrest⟩ | ⟨hne, hrest⟩ |
              ⟨hne, hrest⟩
            · exact Or.inr ⟨hrest.2.2, mutated_concat_ne ⟨hhash, hid, Or.inl ⟨hne, hrest⟩⟩⟩
            · exact Or.inr ⟨hrest.2.2, mutated_concat_ne
                ⟨hhash, hid, Or.inr (Or.inl ⟨hne, hrest⟩)⟩⟩
            · exact Or.inr ⟨hrest.2.2, mutated_concat_ne
                ⟨hhash, hid, Or.inr (Or.inr (Or.inl ⟨hne, hrest⟩))⟩⟩
            · exact Or.inl hne
          unfold verifyFrom
          rcases hprev_or with hne | ⟨heq, hconcat⟩
          · rw [if_pos (by rw [h1] at hne; exact hne)]
          · rw [if_neg (by simp [heq, h1])]
            rw [if_pos ?_]
            rw [hhash, h2]
            unfold calcEntryHash
            intro hEq
            exact hconcat (Hinj hEq).symm
      | succ j =>
          have hj : j < rest.length := by simpa using hi
          show verifyFrom H exp (e :: rest.set j e') = false
          unfold verifyFrom
          rw [if_neg (by simp [h1]), if_neg (by simp [h2])]
          exact ih j e.entry_hash e' hj h3 hm

/-- C2.  Starting from any valid (possibly empty) chain, every sequence
of `add_entry` calls keeps `verify_chain_integrity` true; and mutating any
single one of the `message`, `timestamp`, `level` or `previous_hash`
fields of any entry (its stored hash unchanged) makes it false, given a
collision-free hash. -/
theorem c2_log_chain_integrity (H : String → String)
    (Hinj : Function.Injective H) :
    (∀ (chain : List LogEntry) (reqs : List AppendReq),
      verifyChain H chain = true →
      verifyChain H (addEntries H chain reqs) = true) ∧
    (∀ (chain : List LogEntry) (i : ℕ) (hi : i < chain.length) (e' : LogEntry),
      verifyChain H chain = true →
      mutatedEntry (chain.get ⟨i, hi⟩) e' →
      verifyChain H (chain.set i e') = false) := by
  constructor
  · intro chain reqs h
    exact verifyChain_addEntries H reqs chain h
  · intro chain i hi e' h hm
    exact verifyFrom_set_mutated H Hinj chain i genesisHash e' hi h hm

/-- Helper: `hPrepend` is injective. -/
theorem hPrepend_inj : Function.Injective hPrepend := by
  intro a b hab
  have := congrArg String.data hab
  simp only [hPrepend, String.data_append] at this
  exact String.ext (List.append_cancel_left this)

/-- C2, witness.  The theorem applied to the empty chain with one
append, and to mutating that entry's message. -/
theorem c2_log_chain_integrity_witness :
    verifyChain hPrepend chainOne = true ∧
    verifyChain hPrepend (chainOne.set 0
      { chainOne.get ⟨0, by decide⟩ with message := "m2" }) = false := by
  constructor
  · exact (c2_log_chain_integrity hPrepend hPrepend_inj).1 [] _ rfl
  · exact (c2_log_chain_integrity hPrepend hPrepend_inj).2 chainOne 0 (by decide)
      { chainOne.get ⟨0, by decide⟩ with message := "m2" } (by decide)
      ⟨rfl, rfl, Or.inl ⟨by decide, rfl, rfl, rfl⟩⟩

/-- Helper: bounds for the dd-monitor emissions from any starting stored
progress at most 82. -/
theorem ddMonitorTrace_bounds :
    ∀ (n : ℕ) (p : ℚ), 0 ≤ p → p ≤ 82 →
      ∀ x ∈ ddMonitorTrace p n, 0 ≤ x ∧ x ≤ 100 := by
  intro n
  induction n with
  | zero =>
      intro p _ _ x hx
      exact absurd hx (by simp [ddMonitorTrace])
  | succ m ih =>
      intro p hp0 hp82 x hx
      unfold ddMonitorTrace at hx
      by_cases h : p < 80
      · rw [if_pos h] at hx
        rcases List.mem_cons.mp hx with rfl | hx'
        · constructor <;> linarith
        · exact ih (p + 2) (by linarith) (by linarith) x hx'
      · rw [if_neg h] at hx
        exact ih p hp0 hp82 x hx

/-- Helper: bounds for one overwrite pass's emissions. -/
theorem overwriteTrace_bounds {base size : ℚ} (hb0 : 0 ≤ base) (hb : base ≤ 80)
    (hs : 0 < size) (w : List ℚ) (hw : ∀ v ∈ w, 0 ≤ v ∧ v ≤ size) :
    ∀ x ∈ overwriteTrace base size w, 0 ≤ x ∧ x ≤ 100 := by
  intro x hx
  unfold overwriteTrace at hx
  rcases List.mem_map.mp hx with ⟨v, hv, rfl⟩
  obtain ⟨hv0, hvs⟩ := hw v hv
  have hd0 : 0 ≤ v / size := div_nonneg hv0 (le_of_lt hs)
  have hd1 : v / size ≤ 1 := (div_le_one hs).mpr hvs
  constructor <;> nlinarith

/-- Helper: bounds for the verification-phase emissions. -/
theorem verificationTrace_bounds (count checked : ℕ) (hcc : checked ≤ count) :
    ∀ x ∈ verificationTrace count checked, 0 ≤ x ∧ x ≤ 100 := by
  intro x hx
  unfold verificationTrace at hx
  simp only [List.mem_map, List.mem_filter, List.mem_range] at hx
  obtain ⟨i, ⟨hi2, -⟩, rfl⟩ := hx
  have hic : i < count := by omega
  have hcpos : 0 < count := by omega
  have hc0 : (0 : ℚ) < count := by exact_mod_cast hcpos
  have hd0 : 0 ≤ (i : ℚ) / count := div_nonneg (by positivity) (le_of_lt hc0)
  have hd1 : (i : ℚ) / count ≤ 1 := by
    rw [div_le_one hc0]
    exact_mod_cast le_of_lt hic
  constructor <;> nlinarith

/-- C8, counterexample.  The claim says progress values lie in `[0, 1]`
and are non-decreasing over the trace.  A successful `single_pass_random`
run emits `[10, 2, 90, 90, 100]`: pre-flight reports 10 (a percentage, not
a fraction in `[0, 1]`) and the dd monitor then restarts the stored
progress at 2, so the trace is not non-decreasing either. -/
theorem c8_progress_counterexample :
    runTraceSinglePass 1 2 2 = [10, 2, 90, 90, 100] ∧
    ¬ (∀ x ∈ runTraceSinglePass 1 2 2, 0 ≤ x ∧ x ≤ 1) ∧
    ¬ List.Chain' (fun a b : ℚ => a ≤ b) (runTraceSinglePass 1 2 2) := by
  have htr : runTraceSinglePass 1 2 2 = [10, 2, 90, 90, 100] := by
    unfold runTraceSinglePass preFlightTrace singlePassTrace ddMonitorTrace
      ddMonitorTrace verificationTrace
    norm_num [List.range_succ]
  refine ⟨htr, ?_, ?_⟩
  · intro h
    have := (h 10 (by rw [htr]; simp)).2
    linarith
  · intro h
    rw [htr] at h
    have := List.chain'_cons.mp h
    linarith [this.1]

/-- C8, amended.  Every progress value the wipe core stores or passes
to a callback is a percentage in `[0, 100]`: the secure-erase estimator
values, the dd-monitor values, the multipass per-chunk values, the
verification-sample values and the full single-pass run trace all lie in
`[0, 100]` (monotonicity over a whole trace does not hold, per the
counterexample). -/
theorem c8_progress_range :
    (∀ (est : ℚ) (elapsed : List ℚ) (ok : Bool),
      0 ≤ est → (∀ e ∈ elapsed, 0 ≤ e) →
      ∀ x ∈ ataTrace est elapsed ok, 0 ≤ x ∧ x ≤ 100) ∧
    (∀ (p : ℚ) (n : ℕ), 0 ≤ p → p ≤ 80 →
      ∀ x ∈ ddMonitorTrace p n, 0 ≤ x ∧ x ≤ 100) ∧
    (∀ (size : ℚ) (w1 w2 w3 : List ℚ), 0 < size →
      (∀ w ∈ w1 ++ (w2 ++ w3), 0 ≤ w ∧ w ≤ size) →
      ∀ x ∈ multipassTrace size w1 w2 w3, 0 ≤ x ∧ x ≤ 100) ∧
    (∀ (count checked : ℕ), checked ≤ count →
      ∀ x ∈ verificationTrace count checked, 0 ≤ x ∧ x ≤ 100) ∧
    (∀ (polls count checked : ℕ), checked ≤ count →
      ∀ x ∈ runTraceSinglePass polls count checked, 0 ≤ x ∧ x ≤ 100) := by
  have hdd := ddMonitorTrace_bounds
  have hver := verificationTrace_bounds
  refine ⟨?_, ?_, ?_, hver, ?_⟩
  · intro est elapsed ok hest helapsed x hx
    unfold ataTrace at hx
    rcases List.mem_cons.mp hx with rfl | hx'
    · norm_num
    · rcases List.mem_append.mp hx' with hm | hif
      · rcases List.mem_map.mp hm with ⟨e, he, rfl⟩
        have he0 : 0 ≤ e / est * 60 :=
          mul_nonneg (div_nonneg (helapsed e he) hest) (by norm_num)
        unfold estimatedProgress
        constructor
        · rw [le_min_iff]
          constructor <;> linarith
        · calc min (30 + e / est * 60) 90 ≤ 90 := min_le_right _ _
            _ ≤ 100 := by norm_num
      · rcases ok with _ | _
        · exact absurd hif (by simp)
        · rcases List.mem_singleton.mp (by simpa using hif) with rfl
          norm_num
  · intro p n hp0 hp80
    exact hdd n p hp0 (by linarith)
  · intro size w1 w2 w3 hs hw x hx
    unfold multipassTrace at hx
    have hw1 : ∀ v ∈ w1, 0 ≤ v ∧ v ≤ size := fun v hv =>
      hw v (List.mem_append.mpr (Or.inl hv))
    have hw2 : ∀ v ∈ w2, 0 ≤ v ∧ v ≤ size := fun v hv =>
      hw v (List.mem_append.mpr (Or.inr (List.mem_append.mpr (Or.inl hv))))
    have hw3 : ∀ v ∈ w3, 0 ≤ v ∧ v ≤ size := fun v hv =>
      hw v (List.mem_append.mpr (Or.inr (List.mem_append.mpr (Or.inr hv))))
    rcases List.mem_append.mp hx with hx12 | hx3
    · rcases List.mem_append.mp hx12 with hx1 | hx2
      · rcases List.mem_append.mp hx1 with hm | h50
        · exact overwriteTrace_bounds (by norm_num) (by norm_num) hs w1 hw1 x hm
        · rcases List.mem_singleton.mp h50 with rfl
          norm_num
      · rcases List.mem_append.mp hx2 with hm | h70
        · exact overwriteTrace_bounds (by norm_num) (by norm_num) hs w2 hw2 x hm
        · rcases List.mem_singleton.mp h70 with rfl
          norm_num
    · rcases List.mem_append.mp hx3 with hm | h90
      · exact overwriteTrace_bounds (by norm_num) (by norm_num) hs w3 hw3 x hm
      · rcases List.mem_singleton.mp h90 with rfl
        norm_num
  · intro polls count checked hcc x hx
    unfold runTraceSinglePass preFlightTrace singlePassTrace at hx
    rcases List.mem_append.mp hx with hx1 | h100
    · rcases List.mem_append.mp hx1 with hx2 | hxv
      · rcases List.mem_append.mp hx2 with h10 | hx3
        · rcases List.mem_singleton.mp h10 with rfl
          norm_num
        · rcases List.mem_append.mp hx3 with hdd' | h90
          · exact hdd polls 0 (by norm_num) (by norm_num) x hdd'
          · rcases List.mem_singleton.mp (by simpa using h90) with rfl
            norm_num
      · exact hver count checked hcc x hxv
    · rcases List.mem_singleton.mp h100 with rfl
      norm_num

/-- C8, witness.  The range theorem applied to the head value of the
concrete single-pass trace. -/
theorem c8_progress_range_witness : 0 ≤ (10 : ℚ) ∧ (10 : ℚ) ≤ 100 :=
  c8_progress_range.2.2.2.2 1 2 2 (by decide) 10
    (by
      unfold runTraceSinglePass preFlightTrace
      simp)

/-- Helper: `verifyK` accepts `signK`'s signatures. -/
theorem signK_correct : ∀ d : List Char, verifyK d (signK d) = true := by
  intro d
  exact beq_self_eq_true (String.mk d)

/-- Helper: `verifyK` binds the signed bytes. -/
theorem signK_binding :
    ∀ d d' : List Char, verifyK d' (signK d) = true → d' = d := by
  intro d d' h
  have h2 := eq_of_beq h
  exact (congrArg String.data h2).symm

/-- C5, counterexample.  The claim says two builds from the same
operation and log bytes produce byte-identical canonical forms.  Each
build generates a fresh `certificate_id` (uuid4) and issue timestamp that
are part of the canonical form, so two builds differing only in the
generated id already produce different canonical bytes. -/
theorem c5_canonicalization_counterexample :
    canonicalSansSig (generateCertificate signK hashK fmtK ("fp") ("a") ("t") sampleOp []) ≠
      canonicalSansSig (generateCertificate signK hashK fmtK ("fp") ("b") ("t") sampleOp []) := by
  decide

/-- C5, amended.  The canonical form ignores the `signature` and
`blockchain_anchor` slots and is a function of the remaining fields
alone; hence two builds from the same operation, log bytes and the same
generated `certificate_id` / timestamp produce byte-identical canonical
forms, whatever the signing primitive. -/
theorem c5_canonicalization_determinism :
    (∀ (c : CertificateData) (sig : String) (anc : Option String),
      canonicalSansSig { c with signature := sig, blockchain_anchor := anc } =
        canonicalSansSig c) ∧
    (∀ (c1 c2 : CertificateData), stripSig c1 = stripSig c2 →
      canonicalSansSig c1 = canonicalSansSig c2) ∧
    (∀ (sign1 sign2 : List Char → String) (hashHex16 : String → String)
        (fmt : ℚ → String) (fp certId ts : String) (op : WipeOperation)
        (chain : List LogEntry),
      canonicalSansSig
          (generateCertificate sign1 hashHex16 fmt fp certId ts op chain) =
        canonicalSansSig
          (generateCertificate sign2 hashHex16 fmt fp certId ts op chain)) := by
  refine ⟨fun c sig anc => rfl, ?_, fun sign1 sign2 h f fp certId ts op chain => rfl⟩
  intro c1 c2 h
  have h1 : canonicalSansSig c1 = canonicalSansSig (stripSig c1) := rfl
  have h2 : canonicalSansSig c2 = canonicalSansSig (stripSig c2) := rfl
  rw [h1, h2, h]

/-- C5, witness.  The field-dependence clause applied to two concrete
certificates differing only in their signature slot. -/
theorem c5_canonicalization_determinism_witness :
    canonicalSansSig { sampleCert with signature := "other" } =
      canonicalSansSig sampleCert :=
  c5_canonicalization_determinism.2.1 { sampleCert with signature := "other" }
    sampleCert rfl

/-- C1.  With an abstract signature scheme that accepts its own
signatures (`hC`) and binds the signed bytes (`hB`): (a) verifying a
certificate produced by the builder reports the signature valid; and
(b) altering any signed field (any field other than `signature` and
`blockchain_anchor`) of such a certificate — keeping its signature — makes
verification report invalid, provided the numeric fields of both
certificates are well-formed float `repr`s. -/
theorem c1_signature_roundtrip
    (sign : List Char → String) (sigVerify : List Char → String → Bool)
    (hC : ∀ d, sigVerify d (sign d) = true)
    (hB : ∀ d d', sigVerify d' (sign d) = true → d' = d)
    (hashHex16 : String → String) (fmt : ℚ → String) (fp certId ts : String)
    (op : WipeOperation) (chain : List LogEntry) :
    verifyCertificate sigVerify
        (generateCertificate sign hashHex16 fmt fp certId ts op chain) = true ∧
    (∀ c' : CertificateData,
      c'.signature =
        (generateCertificate sign hashHex16 fmt fp certId ts op chain).signature →
      certNumOk c' →
      certNumOk (generateCertificate sign hashHex16 fmt fp certId ts op chain) →
      stripSig c' ≠
        stripSig (generateCertificate sign hashHex16 fmt fp certId ts op chain) →
      verifyCertificate sigVerify c' = false) := by
  constructor
  · exact hC (canonicalSansSig
      (prepareCertificateData hashHex16 fmt fp certId ts op chain))
  · intro c' hsig hnum1 hnum2 hne
    cases hv : verifyCertificate sigVerify c' with
    | false => rfl
    | true =>
        unfold verifyCertificate at hv
        rw [hsig] at hv
        have hcan : canonicalSansSig c' =
            canonicalSansSig
              (prepareCertificateData hashHex16 fmt fp certId ts op chain) :=
          hB (canonicalSansSig
            (prepareCertificateData hashHex16 fmt fp certId ts op chain))
            (canonicalSansSig c') hv
        have hstrip := canonicalSansSig_inj hnum1 hnum2 hcan
        exact absurd hstrip hne

/-- C1, witness.  The theorem applied to the concrete scheme
`signK`/`verifyK` and the concrete build: the built certificate verifies,
and the same certificate with its `certificate_id` altered (signature
kept) does not. -/
theorem c1_signature_roundtrip_witness :
    verifyCertificate verifyK sampleCert = true ∧
    verifyCertificate verifyK { sampleCert with certificate_id := "ZZZ" } = false := by
  have h := c1_signature_roundtrip signK verifyK signK_correct signK_binding
    hashK fmtK ("fp") ("a") ("t") sampleOp []
  refine ⟨h.1, ?_⟩
  exact h.2 { sampleCert with certificate_id := "ZZZ" } rfl (by decide) (by decide)
    (by decide)

end Veriwipe
